import Mathlib

/-!
Task list application: HomeScreen.js and AddTaskScreen.js

A shallow embedding of the list controller (HomeScreen.js) and of the task
editor (AddTaskScreen.js), followed by theorems about them.

Conventions of the embedding

* A JavaScript string is a Lean String; strict equality of strings is equality.
* A property that may be absent is a Field: absent (it reads as undefined),
  null, or a string.
* The value kept under the AsyncStorage key "tasks" is a Stored: nothing, a
  text that JSON.parse rejects, or the JSON text of an array of entries.
  JSON.stringify followed by JSON.parse is the identity on such arrays, since
  an absent property is dropped by stringify and stays absent after parse.
* Numbers only occur as the result of a sort comparator. A JSNumber is NaN, an
  infinity, or an exact decimal mantissa * 10 ^ exp10; rounding to a double is
  not modelled, whether a value is NaN is exact.
* String.prototype.toLowerCase is a host function. The definitions take it as
  the parameter toLowerCase and every theorem holds for each choice of it.
-/

namespace TodoApp

/-! ## Values -/

/-- A property of a task object that may be missing: absent (reads as
undefined), null, or a string. -/
inductive Field where
  | undefined
  | null
  | str (s : String)
deriving DecidableEq, Repr

/-- JavaScript truthiness of a Field: only a non-empty string is truthy. -/
def Field.truthy : Field → Bool
  | .str s => s != ""
  | _ => false

/-- A task object, with the properties the application reads and writes. -/
structure Task where
  text : String
  completed : Bool
  priority : Field
  category : Field
  dueDate : Field
  notes : Field
  createdAt : Field
deriving DecidableEq, Repr

/-- An element of a task array: a legacy bare string (typeof t === 'string')
or a task object. -/
inductive Item where
  | str (s : String)
  | obj (t : Task)
deriving DecidableEq, Repr

/-- The expression t.text: undefined on a bare string. -/
def Item.text : Item → Field
  | .str _ => .undefined
  | .obj t => .str t.text

/-- The expression t.createdAt: undefined on a bare string. -/
def Item.createdAt : Item → Field
  | .str _ => .undefined
  | .obj t => t.createdAt

/-- The expression t.priority: undefined on a bare string. -/
def Item.priority : Item → Field
  | .str _ => .undefined
  | .obj t => t.priority

/-- Truthiness of the expression t.completed: undefined, hence falsy, on a
bare string. -/
def Item.completed : Item → Bool
  | .str _ => false
  | .obj t => t.completed

/-- The test typeof t === 'string'. -/
def Item.isString : Item → Bool
  | .str _ => true
  | .obj _ => false

/-! ## Numbers, as far as a sort comparator needs them -/

/-- A JavaScript number: NaN, plus or minus infinity, or the exact decimal
mantissa * 10 ^ exp10. -/
inductive JSNumber where
  | nan
  | inf (negative : Bool)
  | fin (mantissa : Int) (exp10 : Int)
deriving DecidableEq, Repr

/-- Unary minus. -/
def JSNumber.neg : JSNumber → JSNumber
  | .nan => .nan
  | .inf n => .inf (!n)
  | .fin m e => .fin (-m) e

/-- The binary operator minus on numbers. Two finite values are brought to
the smaller exponent, so the sign of the result is exact. -/
def JSNumber.sub : JSNumber → JSNumber → JSNumber
  | .nan, _ => .nan
  | _, .nan => .nan
  | .inf n, .inf k => if n = k then .nan else .inf n
  | .inf n, .fin _ _ => .inf n
  | .fin _ _, .inf k => .inf (!k)
  | .fin m e, .fin k d =>
    let low := min e d
    .fin (m * 10 ^ (e - low).toNat - k * 10 ^ (d - low).toNat) low

/-- The test v > 0, false for NaN. -/
def JSNumber.isPositive : JSNumber → Bool
  | .nan => false
  | .inf n => !n
  | .fin m _ => decide (0 < m)

/-- White space and line terminators, the characters String.prototype.trim
and StringToNumber strip. -/
def isStrWhiteSpaceChar (c : Char) : Bool :=
  let n := c.toNat
  n == 0x9 || n == 0xA || n == 0xB || n == 0xC || n == 0xD || n == 0x20 ||
  n == 0xA0 || n == 0x1680 || (0x2000 ≤ n && n ≤ 0x200A) || n == 0x2028 ||
  n == 0x2029 || n == 0x202F || n == 0x205F || n == 0x3000 || n == 0xFEFF

/-- String.prototype.trim on the characters of a string. -/
def trimChars (cs : List Char) : List Char :=
  ((cs.dropWhile isStrWhiteSpaceChar).reverse.dropWhile isStrWhiteSpaceChar).reverse

/-- String.prototype.trim. -/
def trim (s : String) : String := ⟨trimChars s.data⟩

/-- The value of one digit in the given base, none if the character is not a
digit of that base. -/
def digitVal (base : Nat) (c : Char) : Option Nat :=
  let n := c.toNat
  let v : Option Nat :=
    if 48 ≤ n ∧ n ≤ 57 then some (n - 48)
    else if 97 ≤ n ∧ n ≤ 102 then some (n - 87)
    else if 65 ≤ n ∧ n ≤ 70 then some (n - 55)
    else none
  match v with
  | some d => if d < base then some d else none
  | none => none

/-- The value of a run of digits, none if some character is not a digit. -/
def digitsValue (base : Nat) : Nat → List Char → Option Nat
  | acc, [] => some acc
  | acc, c :: cs =>
    match digitVal base c with
    | some d => digitsValue base (acc * base + d) cs
    | none => none

/-- A non-empty run of digits that makes up the whole input. -/
def wholeDigits (base : Nat) (cs : List Char) : Option Nat :=
  if cs.isEmpty then none else digitsValue base 0 cs

/-- SignedInteger of an ExponentPart. -/
def signedInteger : List Char → Option Int
  | '+' :: cs => (wholeDigits 10 cs).map Int.ofNat
  | '-' :: cs => (wholeDigits 10 cs).map (fun n => - Int.ofNat n)
  | cs => (wholeDigits 10 cs).map Int.ofNat

/-- ExponentPart, or nothing, up to the end of the input. -/
def exponentPart : List Char → Option Int
  | [] => some 0
  | c :: cs => if c = 'e' ∨ c = 'E' then signedInteger cs else none

/-- StrUnsignedDecimalLiteral: Infinity, or digits with an optional fraction
and an optional exponent. -/
def strUnsignedDecimal (cs : List Char) : JSNumber :=
  if cs = "Infinity".data then .inf false
  else
    let ip := cs.takeWhile Char.isDigit
    let r1 := cs.dropWhile Char.isDigit
    let fp := match r1 with
      | '.' :: r => r.takeWhile Char.isDigit
      | _ => []
    let r2 := match r1 with
      | '.' :: r => r.dropWhile Char.isDigit
      | _ => r1
    if ip.isEmpty ∧ fp.isEmpty then .nan
    else
      match digitsValue 10 0 (ip ++ fp), exponentPart r2 with
      | some m, some e => .fin (Int.ofNat m) (e - Int.ofNat fp.length)
      | _, _ => .nan

/-- A non-decimal integer literal after its 0x, 0o or 0b marker. -/
def nonDecimal (base : Nat) (cs : List Char) : JSNumber :=
  match wholeDigits base cs with
  | some n => .fin (Int.ofNat n) 0
  | none => .nan

/-- StringToNumber on the characters of a string: the number a string
operand of the operator minus is converted to. -/
def charsToNumber (cs : List Char) : JSNumber :=
  match trimChars cs with
  | [] => .fin 0 0
  | '0' :: 'x' :: r => nonDecimal 16 r
  | '0' :: 'X' :: r => nonDecimal 16 r
  | '0' :: 'o' :: r => nonDecimal 8 r
  | '0' :: 'O' :: r => nonDecimal 8 r
  | '0' :: 'b' :: r => nonDecimal 2 r
  | '0' :: 'B' :: r => nonDecimal 2 r
  | '+' :: r => strUnsignedDecimal r
  | '-' :: r => (strUnsignedDecimal r).neg
  | r => strUnsignedDecimal r

/-- StringToNumber. -/
def stringToNumber (s : String) : JSNumber := charsToNumber s.data

/-! ## Array.prototype.sort -/

/-- SortCompare does not ask for a swap: the comparator result is not greater
than zero, a NaN result counting as zero. -/
def keepsOrder {α : Type} (cmp : α → α → JSNumber) (a b : α) : Prop :=
  (cmp a b).isPositive = false

instance keepsOrderDecidable {α : Type} (cmp : α → α → JSNumber) :
    DecidableRel (keepsOrder cmp) :=
  fun a b => inferInstanceAs (Decidable ((cmp a b).isPositive = false))

/-- Array.prototype.sort with a comparator, as a stable insertion sort: an
element moves behind a later one only when the comparator is positive on the
pair. For a comparator that is a difference of keys this is the stable sort
the language specifies; for an inconsistent comparator the language leaves
the order to the engine. -/
def arraySort {α : Type} (cmp : α → α → JSNumber) (l : List α) : List α :=
  l.insertionSort (keepsOrder cmp)

/-- String.prototype.includes: the search string occurs as a contiguous
run. -/
def includes (s q : String) : Bool :=
  s.data.tails.any (fun t => q.data.isPrefixOf t)

/-! ## HomeScreen.js: deriving the display list -/

section Derivation

variable (toLowerCase : String → String)

/-- The search callback of applyFiltersAndSort,
(t.text || t).toLowerCase().includes(searchQuery.toLowerCase()).
On a task object whose text is empty, t.text || t is the object itself, which
has no toLowerCase: the call throws a TypeError, rendered as none. -/
def matchesSearch (searchQuery : String) : Item → Option Bool
  | .str s => some (includes (toLowerCase s) (toLowerCase searchQuery))
  | .obj o =>
    if o.text = "" then none
    else some (includes (toLowerCase o.text) (toLowerCase searchQuery))

/-- Array.prototype.filter with a callback that may throw: none as soon as
the callback throws on some element. -/
def filterChecked (p : Item → Option Bool) : List Item → Option (List Item)
  | [] => some []
  | t :: ts =>
    match p t with
    | none => none
    | some keep =>
      match filterChecked p ts with
      | none => none
      | some r => some (if keep then t :: r else r)

/-- What a property read on the object literal
{ high: 0, normal: 1, low: 2, undefined: 3 } finds: one of its numbers, or a
member inherited from Object.prototype. -/
inductive OrderEntry where
  | num (n : Nat)
  | inherited
deriving DecidableEq, Repr

/-- The property names every object inherits from Object.prototype. -/
def objectPrototypeKeys : List String :=
  ["constructor", "__defineGetter__", "__defineSetter__", "hasOwnProperty",
   "__lookupGetter__", "__lookupSetter__", "isPrototypeOf",
   "propertyIsEnumerable", "toString", "valueOf", "__proto__", "toLocaleString"]

/-- The property key a priority value is converted to. -/
def propertyKey : Field → String
  | .undefined => "undefined"
  | .null => "null"
  | .str s => s

/-- The read order[key], none when it yields undefined. -/
def order (key : String) : Option OrderEntry :=
  if key = "high" then some (.num 0)
  else if key = "normal" then some (.num 1)
  else if key = "low" then some (.num 2)
  else if key = "undefined" then some (.num 3)
  else if key ∈ objectPrototypeKeys then some .inherited
  else none

/-- The operand (order[t.priority] || 3) as the operator minus sees it. The
number 0 is falsy and gives way to 3; an inherited member is truthy and
converts to NaN. -/
def priorityOperand (t : Item) : JSNumber :=
  match order (propertyKey t.priority) with
  | some (.num n) => if n = 0 then .fin 3 0 else .fin (Int.ofNat n) 0
  | some .inherited => .nan
  | none => .fin 3 0

/-- The operand (t.createdAt || 0) as the operator minus sees it: a truthy
createdAt is a string and goes through StringToNumber. -/
def dateOperand (t : Item) : JSNumber :=
  match t.createdAt with
  | .str s => if s = "" then .fin 0 0 else stringToNumber s
  | _ => .fin 0 0

/-- The comparator (a, b) => (order[a.priority] || 3) - (order[b.priority] || 3). -/
def comparePriority (a b : Item) : JSNumber :=
  (priorityOperand a).sub (priorityOperand b)

/-- The comparator (a, b) => (b.createdAt || 0) - (a.createdAt || 0). -/
def compareDate (a b : Item) : JSNumber :=
  (dateOperand b).sub (dateOperand a)

/-- Line 52, if (searchQuery) result = result.filter(...): none when the
callback throws. -/
def searchStage (searchQuery : String) (l : List Item) : Option (List Item) :=
  if searchQuery ≠ "" then filterChecked (matchesSearch toLowerCase searchQuery) l
  else some l

/-- Lines 53 and 54, the two status filters, one after the other. -/
def statusStage (filter : String) (l : List Item) : List Item :=
  let r := if filter = "active" then l.filter (fun t => !t.completed) else l
  if filter = "completed" then r.filter (fun t => t.completed) else r

/-- Lines 55 to 60, the sort chosen by sortBy. -/
def sortStage (sortBy : String) (l : List Item) : List Item :=
  if sortBy = "priority" then arraySort comparePriority l
  else if sortBy = "date" then arraySort compareDate l
  else l

/-- The list applyFiltersAndSort hands to setFilteredTasks, for the
searchQuery, filter and sortBy of the closure; none when the search callback
throws, in which case setFilteredTasks is not reached. -/
def applyFiltersAndSort (searchQuery filter sortBy : String) (taskList : List Item) :
    Option (List Item) :=
  (searchStage toLowerCase searchQuery taskList).map
    (fun r => sortStage sortBy (statusStage filter r))

end Derivation

/-! ## AsyncStorage -/

/-- The value kept under the key "tasks". -/
inductive Stored where
  | null
  | invalid
  | array (l : List Item)
deriving DecidableEq, Repr

/-- A call made to AsyncStorage on the key "tasks". -/
inductive StorageCall where
  | getItem
  | setItem (v : Stored)
deriving DecidableEq, Repr

/-- The store: the value under "tasks", whether reads and writes reject, and
the calls made so far, oldest first. -/
structure AsyncStorage where
  value : Stored
  readFails : Bool
  writeFails : Bool
  calls : List StorageCall
deriving DecidableEq, Repr

/-- AsyncStorage.getItem("tasks"): the store with the call recorded, and the
value read, none when the read rejects. -/
def AsyncStorage.getItem (st : AsyncStorage) : AsyncStorage × Option Stored :=
  ({ st with calls := st.calls ++ [.getItem] },
   if st.readFails then none else some st.value)

/-- AsyncStorage.setItem("tasks", v): the store with the call recorded and,
unless the write rejects, the new value; the flag tells whether it resolved. -/
def AsyncStorage.setItem (st : AsyncStorage) (v : Stored) : AsyncStorage × Bool :=
  if st.writeFails then ({ st with calls := st.calls ++ [.setItem v] }, false)
  else ({ st with value := v, calls := st.calls ++ [.setItem v] }, true)

/-! ## HomeScreen.js: state and actions -/

/-- The parameters of navigation.navigate("AddTask", ...). -/
structure RouteParams where
  task : Option Item
  index : Int
deriving DecidableEq, Repr

/-- The state of HomeScreen together with what it acts on: the store, the
alerts shown and the navigations requested. -/
structure HomeScreen where
  tasks : List Item
  filteredTasks : List Item
  searchQuery : String
  filter : String
  sortBy : String
  storage : AsyncStorage
  alerts : List String
  navigated : List RouteParams
deriving DecidableEq, Repr

/-- The state after an action, and whether an exception left the action
(for an async action: whether its promise rejected). -/
structure Outcome where
  state : HomeScreen
  threw : Bool
deriving DecidableEq, Repr

/-- The legacy record { text: t, completed: false }. -/
def legacyRecord (s : String) : Task :=
  { text := s, completed := false, priority := .undefined, category := .undefined,
    dueDate := .undefined, notes := .undefined, createdAt := .undefined }

/-- The map callback of loadTasks,
t => typeof t === 'string' ? { text: t, completed: false } : t. -/
def normalizeItem : Item → Item
  | .str s => .obj (legacyRecord s)
  | .obj t => .obj t

/-- The position Array.prototype.findIndex returns, none for -1. -/
def findIndex {α : Type} (p : α → Bool) : List α → Option Nat
  | [] => none
  | x :: xs => if p x then some 0 else (findIndex p xs).map (· + 1)

/-- The identity test of updateTask and editTask on a stored element t and
a display item d:
(typeof t === 'string' && t === d) ||
(typeof t !== 'string' && t.text === d.text && t.createdAt === d.createdAt). -/
def sameIdentity (t d : Item) : Bool :=
  match t with
  | .str s => decide (d = .str s)
  | .obj o => decide (Field.str o.text = d.text) && decide (o.createdAt = d.createdAt)

/-- The filter callback of deleteTask on a stored element t and a display
item d:
(typeof t === 'string' && t !== d) ||
(typeof t !== 'string' && (t.text !== d.text || t.createdAt !== d.createdAt)). -/
def survivesDelete (t d : Item) : Bool :=
  match t with
  | .str s => decide (d ≠ .str s)
  | .obj o => decide (Field.str o.text ≠ d.text) || decide (o.createdAt ≠ d.createdAt)

/-- The element updateTask stores in place of old for the update
{ completed: c }: { text: old, ...update } for a bare string,
{ ...old, ...update } for an object. -/
def withCompleted (old : Item) (c : Bool) : Item :=
  match old with
  | .str s => .obj { legacyRecord s with completed := c }
  | .obj o => .obj { o with completed := c }

section Actions

variable (toLowerCase : String → String)

/-- The effect useEffect(() => applyFiltersAndSort(tasks), [tasks, filter,
sortBy, searchQuery]): the display list is derived again from the state. An
exception of the search callback leaves the effect. -/
def refresh (s : HomeScreen) : Outcome :=
  match applyFiltersAndSort toLowerCase s.searchQuery s.filter s.sortBy s.tasks with
  | some r => ⟨{ s with filteredTasks := r }, false⟩
  | none => ⟨s, true⟩

/-- The function loadTasks. Its applyFiltersAndSort is the one of the render
that created the callback, so the searchQuery, filter and sortBy of that
closure are arguments; useFocusEffect(useCallback(..., [])) keeps the first
render, where they are "", "all" and "date". Every exception is caught and
reported by Alert.alert("Error", "Could not load tasks."). -/
def loadTasks (searchQuery filter sortBy : String) (s : HomeScreen) : HomeScreen :=
  let failed (st : AsyncStorage) (tasks : List Item) : HomeScreen :=
    { s with tasks := tasks, storage := st, alerts := s.alerts ++ ["Could not load tasks."] }
  match s.storage.getItem with
  | (st, none) => failed st s.tasks
  | (st, some .invalid) => failed st s.tasks
  | (st, some .null) =>
    match applyFiltersAndSort toLowerCase searchQuery filter sortBy [] with
    | some r => { s with tasks := [], filteredTasks := r, storage := st }
    | none => failed st []
  | (st, some (.array l)) =>
    let loaded := l.map normalizeItem
    match applyFiltersAndSort toLowerCase searchQuery filter sortBy loaded with
    | some r => { s with tasks := loaded, filteredTasks := r, storage := st }
    | none => failed st loaded

end Actions

/-- The function updateTask for the update { completed: c }. With no item at
the display index, taskToUpdate is undefined and the first task object the
search meets throws on taskToUpdate.text. setTasks comes before the awaited
setItem, and nothing catches a rejected write. -/
def updateTask (s : HomeScreen) (index : Nat) (c : Bool) : Outcome :=
  match s.filteredTasks[index]? with
  | none => ⟨s, !s.tasks.all Item.isString⟩
  | some taskToUpdate =>
    match findIndex (fun t => sameIdentity t taskToUpdate) s.tasks with
    | none => ⟨s, false⟩
    | some taskIndex =>
      match s.tasks[taskIndex]? with
      | none => ⟨s, false⟩
      | some old =>
        let updatedTasks := s.tasks.set taskIndex (withCompleted old c)
        let (st, ok) := s.storage.setItem (.array updatedTasks)
        ⟨{ s with tasks := updatedTasks, storage := st }, !ok⟩

/-- The function toggleComplete: filteredTasks[index].completed throws when
there is no item at the index. -/
def toggleComplete (s : HomeScreen) (index : Nat) : Outcome :=
  match s.filteredTasks[index]? with
  | none => ⟨s, true⟩
  | some d => updateTask s index (!d.completed)

/-- The function deleteTask. With no item at the display index, taskToDelete
is undefined: a bare string differs from it and is kept, a task object throws
on taskToDelete.text. The promise of setItem is dropped, so a rejected write
does not reach the caller. -/
def deleteTask (s : HomeScreen) (index : Nat) : Outcome :=
  let stored (updatedTasks : List Item) : Outcome :=
    ⟨{ s with tasks := updatedTasks,
              storage := (s.storage.setItem (.array updatedTasks)).1 }, false⟩
  match s.filteredTasks[index]? with
  | none => if s.tasks.all Item.isString then stored s.tasks else ⟨s, true⟩
  | some taskToDelete => stored (s.tasks.filter (fun t => survivesDelete t taskToDelete))

/-- The function editTask: the first stored element with the identity of the
display item, and its position, go to the editor; with no such element the
task is undefined and the position is -1. With no item at the display index
the search throws on the first task object, as in updateTask. -/
def editTask (s : HomeScreen) (index : Nat) : Outcome :=
  match s.filteredTasks[index]? with
  | none =>
    if s.tasks.all Item.isString then
      ⟨{ s with navigated := s.navigated ++ [⟨none, -1⟩] }, false⟩
    else ⟨s, true⟩
  | some taskToEdit =>
    match findIndex (fun t => sameIdentity t taskToEdit) s.tasks with
    | none => ⟨{ s with navigated := s.navigated ++ [⟨none, -1⟩] }, false⟩
    | some i =>
      ⟨{ s with navigated := s.navigated ++ [⟨s.tasks[i]?, Int.ofNat i⟩] }, false⟩

/-- The function clearCompleted,
setTasks(tasks.filter(...), () => AsyncStorage.setItem(...)).
The setter returned by useState takes one argument; the function passed as a
second argument is never called, so no setItem takes place. -/
def clearCompleted (s : HomeScreen) : HomeScreen :=
  { s with tasks := s.tasks.filter (fun t => t.isString || !t.completed) }

/-! ## AddTaskScreen.js -/

/-- The expression t.category: undefined on a bare string. -/
def Item.category : Item → Field
  | .str _ => .undefined
  | .obj t => t.category

/-- The expression t.dueDate: undefined on a bare string. -/
def Item.dueDate : Item → Field
  | .str _ => .undefined
  | .obj t => t.dueDate

/-- The expression t.notes: undefined on a bare string. -/
def Item.notes : Item → Field
  | .str _ => .undefined
  | .obj t => t.notes

/-- The state of AddTaskScreen together with what it acts on. editTask and
editIndex are route.params?.task and route.params?.index, none for undefined;
task, priority, category, dueDate and notes are the form; dueDate holds the
picked Date by its toDateString() text, none for null; wentBack records
navigation.goBack(). -/
structure AddTaskScreen where
  editTask : Option Item
  editIndex : Option Int
  task : String
  priority : String
  category : String
  dueDate : Option String
  notes : String
  storage : AsyncStorage
  alerts : List String
  wentBack : Bool
deriving DecidableEq, Repr

/-- The constant isEditing = !!editTask: undefined and the empty string are
falsy. -/
def isEditing : Option Item → Bool
  | none => false
  | some (.str s) => s != ""
  | some (.obj _) => true

/-- The value of isEditing && editTask.p ? editTask.p : fallback for a
string-valued property p, given as its accessor. -/
def editedOr (p : Item → Field) (fallback : String) : Option Item → String
  | none => fallback
  | some t =>
    if isEditing (some t) then
      match p t with
      | .str s => if s = "" then fallback else s
      | _ => fallback
    else fallback

/-- The screen as first rendered for the given route parameters: the initial
values of the useState calls. The parameter toDateString stands for
s => new Date(s).toDateString(). -/
def AddTaskScreen.initial (toDateString : String → String) (params : Option RouteParams)
    (storage : AsyncStorage) (alerts : List String) : AddTaskScreen :=
  let editTask : Option Item := params.bind (fun p => p.task)
  { editTask := editTask
    editIndex := params.map (fun p => p.index)
    task :=
      match editTask with
      | some (.str s) => s
      | some (.obj o) => o.text
      | none => ""
    priority := editedOr Item.priority "normal" editTask
    category := editedOr Item.category "" editTask
    dueDate :=
      match editTask with
      | some t =>
        if isEditing (some t) && t.dueDate.truthy then
          match t.dueDate with
          | .str d => some (toDateString d)
          | _ => none
        else none
      | none => none
    notes := editedOr Item.notes "" editTask
    storage := storage
    alerts := alerts
    wentBack := false }

/-- The object literal taskObj of saveTask; now is new Date().toISOString(). -/
def taskObj (now : String) (s : AddTaskScreen) : Task :=
  { text := s.task
    completed :=
      match s.editTask with
      | some t => if isEditing (some t) && t.completed then t.completed else false
      | none => false
    priority := .str s.priority
    category := if s.category ≠ "" then .str s.category else .null
    dueDate :=
      match s.dueDate with
      | some d => .str d
      | none => .null
    notes := if s.notes ≠ "" then .str s.notes else .null
    createdAt :=
      match s.editTask with
      | some t => if isEditing (some t) && t.createdAt.truthy then t.createdAt else .str now
      | none => .str now }

/-- The expression storedTasks ? JSON.parse(storedTasks) : [], none when
JSON.parse throws. -/
def parseStored : Stored → Option (List Item)
  | .null => some []
  | .invalid => none
  | .array l => some l

/-- The assignment tasks[editIndex] = taskObj as JSON.stringify sees the
array afterwards. An index inside the array replaces the element, the index
tasks.length appends, and a negative or undefined index sets a property that
is not an element. An index beyond tasks.length leaves holes, which an array
of entries cannot express: none. -/
def assignAt (tasks : List Item) (editIndex : Option Int) (x : Item) : Option (List Item) :=
  match editIndex with
  | some (Int.ofNat i) =>
    if i < tasks.length then some (tasks.set i x)
    else if i = tasks.length then some (tasks ++ [x])
    else none
  | _ => some tasks

/-- The function saveTask; now is new Date().toISOString(). The result is
none only where assignAt is. -/
def saveTask (now : String) (s : AddTaskScreen) : Option AddTaskScreen :=
  if trim s.task = "" then
    some { s with alerts := s.alerts ++ ["Please enter a task."] }
  else
    let failed (st : AsyncStorage) : AddTaskScreen :=
      { s with storage := st, alerts := s.alerts ++ ["Failed to save task"] }
    match s.storage.getItem with
    | (st, none) => some (failed st)
    | (st, some v) =>
      match parseStored v with
      | none => some (failed st)
      | some tasks =>
        let written : Option (List Item) :=
          if isEditing s.editTask then assignAt tasks s.editIndex (.obj (taskObj now s))
          else some (tasks ++ [.obj (taskObj now s)])
        match written with
        | none => none
        | some w =>
          match st.setItem (.array w) with
          | (st2, true) => some { s with storage := st2, wentBack := true }
          | (st2, false) => some (failed st2)

/-! ## Data of the worked examples and wording of the specification -/

/-- A lower-casing of the ASCII letters, to run the examples with. -/
def asciiLower (s : String) : String := ⟨s.data.map Char.toLower⟩

/-- Task A of the priority example: priority low. -/
def taskA : Item := .obj { legacyRecord "A" with priority := .str "low" }

/-- Task B of the priority example: priority high. -/
def taskB : Item := .obj { legacyRecord "B" with priority := .str "high" }

/-- Task C of the priority example: no priority. -/
def taskC : Item := .obj (legacyRecord "C")

/-- A task created on 1 January 2024. -/
def olderTask : Item :=
  .obj { legacyRecord "older" with
         priority := .str "normal", createdAt := .str "2024-01-01T00:00:00.000Z" }

/-- A task created on 1 June 2024. -/
def newerTask : Item :=
  .obj { legacyRecord "newer" with
         priority := .str "normal", createdAt := .str "2024-06-01T00:00:00.000Z" }

/-- Task A of the status example: not completed. -/
def activeA : Item := .obj (legacyRecord "A")

/-- Task B of the status example: completed. -/
def doneB : Item := .obj { legacyRecord "B" with completed := true }

/-- The text of a stored element: a bare string is its own text. -/
def Item.title : Item → String
  | .str s => s
  | .obj o => o.text

/-- Wording of the specification: the search query is empty, or the text
contains it as a substring once both are lower-cased. -/
def MatchesQuery (toLowerCase : String → String) (q : String) (t : Item) : Prop :=
  q = "" ∨ (toLowerCase q).data <:+: (toLowerCase t.title).data

/-- Wording of the specification: the status filter lets the task through. -/
def PassesStatus (f : String) (t : Item) : Prop :=
  f = "all" ∨ (f = "active" ∧ t.completed = false) ∨ (f = "completed" ∧ t.completed = true)

/-- A screen that shows a completed task and an active one, both persisted. -/
def clearable : HomeScreen :=
  { tasks := [doneB, activeA]
    filteredTasks := [doneB, activeA]
    searchQuery := ""
    filter := "all"
    sortBy := "date"
    storage := ⟨.array [doneB, activeA], false, false, []⟩
    alerts := []
    navigated := [] }

/-- A screen whose two stored tasks are equal records, so they share the
identity (text, createdAt). -/
def twins : HomeScreen :=
  { tasks := [.obj (legacyRecord "milk"), .obj (legacyRecord "milk")]
    filteredTasks := [.obj (legacyRecord "milk"), .obj (legacyRecord "milk")]
    searchQuery := ""
    filter := "all"
    sortBy := "date"
    storage := ⟨.array [.obj (legacyRecord "milk"), .obj (legacyRecord "milk")], false, false, []⟩
    alerts := []
    navigated := [] }

/-- A screen with two distinct stored tasks, shown in store order. -/
def pair : HomeScreen :=
  { tasks := [activeA, doneB]
    filteredTasks := [activeA, doneB]
    searchQuery := ""
    filter := "all"
    sortBy := "date"
    storage := ⟨.array [activeA, doneB], false, false, []⟩
    alerts := []
    navigated := [] }

/-- Toggling the display item at index i, deriving the display list again,
and toggling the display item at index j. -/
def toggleTwice (toLowerCase : String → String) (s : HomeScreen) (i j : Nat) : HomeScreen :=
  (toggleComplete (refresh toLowerCase (toggleComplete s i).state).state j).state

/-- A screen whose display list is out of date: it still shows task C,
which the stored list does not hold. -/
def stale : HomeScreen :=
  { tasks := [activeA, doneB]
    filteredTasks := [taskC]
    searchQuery := ""
    filter := "all"
    sortBy := "date"
    storage := ⟨.array [activeA, doneB], false, false, []⟩
    alerts := []
    navigated := [] }

/-- An empty store on which reads and writes succeed. -/
def emptyStore : AsyncStorage := ⟨.null, false, false, []⟩

/-- The record of the edit example before the edit: text Old, completed,
created at T1. -/
def oldRecord : Task :=
  { text := "Old", completed := true, priority := .str "high", category := .null,
    dueDate := .null, notes := .null, createdAt := .str "T1" }

/-- A store of three entries with oldRecord at position 2. -/
def threeStore : AsyncStorage := ⟨.array [activeA, .str "legacy", .obj oldRecord], false, false, []⟩

/-- The editor opened on oldRecord at position 2, its title changed to New. -/
def editingOld : AddTaskScreen :=
  { AddTaskScreen.initial (fun d => d) (some ⟨some (.obj oldRecord), 2⟩) threeStore [] with
    task := "New" }

/-- The editor opened on the legacy record milk at position 0 of a store
that holds it as a bare string, its title changed to bread. -/
def editingLegacy : AddTaskScreen :=
  { AddTaskScreen.initial (fun d => d) (some ⟨some (.obj (legacyRecord "milk")), 0⟩)
      ⟨.array [.str "milk"], false, false, []⟩ [] with
    task := "bread" }

/-- The editor in create mode on the empty store with a blank title. -/
def blankForm : AddTaskScreen :=
  { AddTaskScreen.initial (fun d => d) none emptyStore [] with task := "  " }

/-- The screen pair on a store whose reads reject. -/
def unreadable : HomeScreen :=
  { pair with storage := ⟨.array [activeA, doneB], true, false, []⟩ }

/-- The screen pair on a store whose text does not parse. -/
def garbled : HomeScreen :=
  { pair with storage := ⟨.invalid, false, false, []⟩ }

/-- The screen pair on a store whose writes reject. -/
def unwritable : HomeScreen :=
  { pair with storage := ⟨.array [activeA, doneB], false, true, []⟩ }

/-- A toggle of the display item d, seen on one stored element: a task
object with the identity of d gets the negated completed flag of d, any other
element stays as it is. -/
def flipMatching (d : Item) : Item → Item
  | .str x => .str x
  | .obj o => if sameIdentity (.obj o) d then .obj { o with completed := !d.completed } else .obj o

/-! ## Lemmas on the derivation of the display list -/

theorem includes_iff (s q : String) : includes s q = true ↔ q.data <:+: s.data := by
  unfold includes
  simp only [List.any_eq_true, List.mem_tails, List.isPrefixOf_iff_prefix]
  rw [List.infix_iff_prefix_suffix]
  constructor
  · rintro ⟨t, h1, h2⟩
    exact ⟨t, h2, h1⟩
  · rintro ⟨t, h1, h2⟩
    exact ⟨t, h2, h1⟩

theorem arraySort_perm {α : Type} (cmp : α → α → JSNumber) (l : List α) :
    (arraySort cmp l).Perm l :=
  List.perm_insertionSort _ l

theorem sortStage_perm (sortBy : String) (l : List Item) : (sortStage sortBy l).Perm l := by
  unfold sortStage
  split
  · exact arraySort_perm _ l
  · split
    · exact arraySort_perm _ l
    · exact List.Perm.refl l

theorem filterChecked_of_total (p : Item → Option Bool) (b : Item → Bool) :
    ∀ l : List Item, (∀ t ∈ l, p t = some (b t)) → filterChecked p l = some (l.filter b)
  | [], _ => rfl
  | t :: ts, h => by
    have ht : p t = some (b t) := h t (List.mem_cons_self t ts)
    have hts : filterChecked p ts = some (ts.filter b) :=
      filterChecked_of_total p b ts (fun x hx => h x (List.mem_cons_of_mem t hx))
    cases hb : b t <;> simp [filterChecked, ht, hts, hb]

theorem filterChecked_sublist (p : Item → Option Bool) :
    ∀ (l r : List Item), filterChecked p l = some r → r.Sublist l
  | [], r, h => by
    simp only [filterChecked, Option.some.injEq] at h
    subst h
    exact List.Sublist.refl _
  | t :: ts, r, h => by
    simp only [filterChecked] at h
    cases hp : p t with
    | none => simp [hp] at h
    | some keep =>
      cases hr : filterChecked p ts with
      | none => simp [hp, hr] at h
      | some r0 =>
        have ih := filterChecked_sublist p ts r0 hr
        simp only [hp, hr, Option.some.injEq] at h
        subst h
        cases keep
        · simpa using ih.cons t
        · simpa using ih.cons₂ t

theorem matchesSearch_of_title (toLowerCase : String → String) (q : String) (t : Item)
    (ht : ∀ o, t = .obj o → o.text ≠ "") :
    matchesSearch toLowerCase q t
      = some (includes (toLowerCase t.title) (toLowerCase q)) := by
  cases t with
  | str s => rfl
  | obj o =>
    have := ht o rfl
    simp [matchesSearch, Item.title, this]

theorem mem_statusStage (f : String) (l : List Item) (t : Item)
    (hf : f = "all" ∨ f = "active" ∨ f = "completed") :
    t ∈ statusStage f l ↔ t ∈ l ∧ PassesStatus f t := by
  rcases hf with rfl | rfl | rfl
  · simp [statusStage, PassesStatus]
  · simp [statusStage, PassesStatus, List.mem_filter]
  · simp [statusStage, PassesStatus, List.mem_filter]

theorem count_statusStage (f : String) (l : List Item) (t : Item) (ht : PassesStatus f t)
    (hf : f = "all" ∨ f = "active" ∨ f = "completed") :
    (statusStage f l).count t = l.count t := by
  rcases hf with rfl | rfl | rfl
  · simp [statusStage]
  · have hc : t.completed = false := by
      rcases ht with h | h | h
      · exact absurd h (by decide)
      · exact h.2
      · exact absurd h.1 (by decide)
    simp only [statusStage, if_true, show ¬ ("active" = "completed") by decide, if_false]
    exact List.count_filter (by simp [hc])
  · have hc : t.completed = true := by
      rcases ht with h | h | h
      · exact absurd h (by decide)
      · exact absurd h.1 (by decide)
      · exact h.2
    simp only [statusStage, show ¬ ("completed" = "active") by decide, if_false, if_true]
    exact List.count_filter (by simp [hc])

theorem searchStage_of_titles (toLowerCase : String → String) (q : String) (l : List Item)
    (htext : q = "" ∨ ∀ o, Item.obj o ∈ l → o.text ≠ "") :
    searchStage toLowerCase q l
      = some (l.filter (fun t => decide (q = "") || includes (toLowerCase t.title) (toLowerCase q))) := by
  unfold searchStage
  by_cases hq : q = ""
  · subst hq
    simp
  · rw [if_pos hq]
    rw [filterChecked_of_total _ (fun t => includes (toLowerCase t.title) (toLowerCase q))]
    · simp [hq]
    · intro t ht
      exact matchesSearch_of_title toLowerCase q t
        (fun o ho => (htext.resolve_left hq) o (ho ▸ ht))

/-! ## Theorems on the derivation of the display list -/

/-- C1. Sorting by priority does not put high first: order.high is 0, which
the fallback || 3 replaces by 3, so a high task ranks with the tasks without
priority. The store [A low, B high, C none] is displayed as [A, B, C], not
as [B, A, C]. -/
theorem priority_sort_ranks_high_last (toLowerCase : String → String) :
    applyFiltersAndSort toLowerCase "" "all" "priority" [taskA, taskB, taskC]
        = some [taskA, taskB, taskC]
      ∧ applyFiltersAndSort toLowerCase "" "all" "priority" [taskA, taskB, taskC]
        ≠ some [taskB, taskA, taskC] := by
  have h : applyFiltersAndSort toLowerCase "" "all" "priority" [taskA, taskB, taskC]
      = some [taskA, taskB, taskC] := rfl
  refine ⟨h, ?_⟩
  rw [h]
  decide

/-- C2. Sorting by date does not reorder ISO timestamps: the comparator
subtracts two strings that are not numeric literals, the difference is NaN,
and the sort treats NaN as a tie. The store [older, newer] is displayed as
[older, newer], the older task first. -/
theorem date_sort_keeps_older_first (toLowerCase : String → String) :
    applyFiltersAndSort toLowerCase "" "all" "date" [olderTask, newerTask]
        = some [olderTask, newerTask]
      ∧ compareDate olderTask newerTask = .nan
      ∧ compareDate newerTask olderTask = .nan := by
  refine ⟨rfl, ?_, ?_⟩ <;> decide

/-- C3. For a status filter among all, active and completed, and a store
whose task objects have a non-empty text (any store when the search query is
empty), applyFiltersAndSort produces a display list; a task is in it exactly
when it is stored, matches the search query and passes the status filter, and
such a task occurs in it as often as in the store. -/
theorem display_holds_exactly_the_matching_tasks (toLowerCase : String → String)
    (q f sortBy : String) (tasks : List Item)
    (hf : f = "all" ∨ f = "active" ∨ f = "completed")
    (htext : q = "" ∨ ∀ o, Item.obj o ∈ tasks → o.text ≠ "") :
    ∃ display, applyFiltersAndSort toLowerCase q f sortBy tasks = some display
      ∧ (∀ t, t ∈ display ↔ t ∈ tasks ∧ MatchesQuery toLowerCase q t ∧ PassesStatus f t)
      ∧ (∀ t, MatchesQuery toLowerCase q t → PassesStatus f t →
            display.count t = tasks.count t) := by
  have hkeep : ∀ t : Item,
      (decide (q = "") || includes (toLowerCase t.title) (toLowerCase q)) = true
        ↔ MatchesQuery toLowerCase q t := by
    intro t
    simp [MatchesQuery, includes_iff]
  refine ⟨sortStage sortBy (statusStage f (tasks.filter
    (fun t => decide (q = "") || includes (toLowerCase t.title) (toLowerCase q)))), ?_, ?_, ?_⟩
  · simp only [applyFiltersAndSort, searchStage_of_titles toLowerCase q tasks htext,
      Option.map_some']
  · intro t
    rw [(sortStage_perm sortBy _).mem_iff, mem_statusStage f _ t hf, List.mem_filter, hkeep]
    tauto
  · intro t hq hs
    rw [(sortStage_perm sortBy _).count_eq, count_statusStage f _ t hs hf]
    exact List.count_filter ((hkeep t).mpr hq)

/-- C3, at the example of the specification: of the store [A active, B
completed] the filter active displays [A] and the filter completed [B]. -/
theorem display_of_active_and_completed :
    (("active" = "all" ∨ "active" = "active" ∨ "active" = "completed")
      ∧ ("" = "" ∨ ∀ o, Item.obj o ∈ [activeA, doneB] → o.text ≠ "")
      ∧ ∃ display, applyFiltersAndSort asciiLower "" "active" "date" [activeA, doneB]
            = some display
          ∧ (∀ t, t ∈ display ↔
              t ∈ [activeA, doneB] ∧ MatchesQuery asciiLower "" t ∧ PassesStatus "active" t)
          ∧ (∀ t, MatchesQuery asciiLower "" t → PassesStatus "active" t →
              display.count t = [activeA, doneB].count t))
      ∧ applyFiltersAndSort asciiLower "" "active" "date" [activeA, doneB] = some [activeA]
      ∧ applyFiltersAndSort asciiLower "" "completed" "date" [activeA, doneB] = some [doneB] := by
  have htext : ∀ o, Item.obj o ∈ [activeA, doneB] → o.text ≠ "" := by
    intro o ho
    simp only [List.mem_cons, List.mem_singleton, activeA, doneB, Item.obj.injEq,
      List.mem_nil_iff, or_false] at ho
    rcases ho with rfl | rfl <;> decide
  exact ⟨⟨Or.inr (Or.inl rfl), Or.inr htext,
    display_holds_exactly_the_matching_tasks asciiLower "" "active" "date" [activeA, doneB]
      (Or.inr (Or.inl rfl)) (Or.inr htext)⟩, by decide, by decide⟩

/-- C4. The action clearCompleted makes no call to the store: the function
that would write is passed to the state setter as a second argument, which
the setter ignores. After clearing [B completed, A active] the screen shows
[A], the persisted list still holds B, and loadTasks brings B back. -/
theorem clearCompleted_writes_nothing (toLowerCase : String → String) :
    (clearCompleted clearable).tasks = [activeA]
      ∧ (clearCompleted clearable).storage = clearable.storage
      ∧ (clearCompleted clearable).storage.calls = []
      ∧ (loadTasks toLowerCase "" "all" "date" (clearCompleted clearable)).tasks
          = [doneB, activeA]
      ∧ doneB.completed = true := by
  refine ⟨by decide, rfl, rfl, rfl, rfl⟩

/-! ## Lemmas on the actions of the list -/

theorem survivesDelete_eq_not_sameIdentity (t d : Item) :
    survivesDelete t d = !sameIdentity t d := by
  cases t with
  | str s => simp [survivesDelete, sameIdentity]
  | obj o =>
    simp only [survivesDelete, sameIdentity, Bool.not_and]
    by_cases h1 : Field.str o.text = d.text <;> by_cases h2 : o.createdAt = d.createdAt <;>
      simp [h1, h2]

theorem findIndex_append_cons {α : Type} (p : α → Bool) (pre post : List α) (x : α)
    (hpre : ∀ t ∈ pre, p t = false) (hx : p x = true) :
    findIndex p (pre ++ x :: post) = some pre.length := by
  induction pre with
  | nil => simp [findIndex, hx]
  | cons a as ih =>
    have ha : p a = false := hpre a (List.mem_cons_self _ _)
    simp [findIndex, ha, ih (fun t ht => hpre t (List.mem_cons_of_mem _ ht))]

theorem split_at_unique {α : Type} (p : α → Bool) (l : List α) (d : α)
    (hd : d ∈ l) (hp : p d = true) (hc : l.countP p ≤ 1) :
    ∃ pre post, l = pre ++ d :: post ∧ (∀ t ∈ pre, p t = false) ∧ (∀ t ∈ post, p t = false) := by
  obtain ⟨pre, post, rfl⟩ := List.append_of_mem hd
  refine ⟨pre, post, rfl, ?_, ?_⟩
  · intro t ht
    by_contra hne
    have hpos : 0 < pre.countP p := List.countP_pos_iff.mpr ⟨t, ht, by simpa using hne⟩
    simp only [List.countP_append, List.countP_cons, hp, if_true] at hc
    omega
  · intro t ht
    by_contra hne
    have hpos : 0 < post.countP p := List.countP_pos_iff.mpr ⟨t, ht, by simpa using hne⟩
    simp only [List.countP_append, List.countP_cons, hp, if_true] at hc
    omega

theorem mem_of_mem_display (toLowerCase : String → String) (q f sortBy : String)
    (tasks display : List Item)
    (h : applyFiltersAndSort toLowerCase q f sortBy tasks = some display) (t : Item)
    (ht : t ∈ display) : t ∈ tasks := by
  unfold applyFiltersAndSort at h
  cases hs : searchStage toLowerCase q tasks with
  | none => simp [hs] at h
  | some r =>
    simp only [hs, Option.map_some', Option.some.injEq] at h
    subst h
    have h1 : t ∈ statusStage f r := (sortStage_perm sortBy _).mem_iff.mp ht
    have h2 : t ∈ r := by
      unfold statusStage at h1
      split_ifs at h1
      · exact List.mem_of_mem_filter (List.mem_of_mem_filter h1)
      · exact List.mem_of_mem_filter h1
      · exact List.mem_of_mem_filter h1
      · exact h1
    have h3 : r.Sublist tasks := by
      unfold searchStage at hs
      split_ifs at hs
      · exact filterChecked_sublist _ _ _ hs
      · simp only [Option.some.injEq] at hs
        subst hs
        exact List.Sublist.refl _
    exact h3.subset h2

theorem filterChecked_isSome (p : Item → Option Bool) :
    ∀ l : List Item, (∀ t ∈ l, (p t).isSome = true) → (filterChecked p l).isSome = true
  | [], _ => rfl
  | t :: ts, h => by
    have ht := h t (List.mem_cons_self t ts)
    have hts := filterChecked_isSome p ts (fun x hx => h x (List.mem_cons_of_mem t hx))
    obtain ⟨b, hb⟩ := Option.isSome_iff_exists.mp ht
    obtain ⟨r, hr⟩ := Option.isSome_iff_exists.mp hts
    simp [filterChecked, hb, hr]

theorem filterChecked_isSome_elim (p : Item → Option Bool) :
    ∀ l : List Item, (filterChecked p l).isSome = true → ∀ t ∈ l, (p t).isSome = true
  | [], _, t, ht => by simp at ht
  | a :: as, h, t, ht => by
    simp only [filterChecked] at h
    cases hp : p a with
    | none => simp [hp] at h
    | some keep =>
      cases hr : filterChecked p as with
      | none => simp [hp, hr] at h
      | some r0 =>
        rcases List.mem_cons.mp ht with rfl | hmem
        · simp [hp]
        · exact filterChecked_isSome_elim p as (by simp [hr]) t hmem

theorem applyFiltersAndSort_isSome_iff (toLowerCase : String → String) (q f sortBy : String)
    (l : List Item) :
    (applyFiltersAndSort toLowerCase q f sortBy l).isSome = true
      ↔ (q ≠ "" → ∀ t ∈ l, (matchesSearch toLowerCase q t).isSome = true) := by
  unfold applyFiltersAndSort searchStage
  by_cases hq : q = ""
  · simp [hq]
  · simp only [hq, ne_eq, not_false_eq_true, if_true, Option.isSome_map', forall_const]
    exact ⟨filterChecked_isSome_elim _ l, filterChecked_isSome _ l⟩

theorem sameIdentity_withCompleted (t : Item) (o : Task) (c : Bool) :
    sameIdentity t (.obj { o with completed := c }) = sameIdentity t (.obj o) := by
  cases t <;> simp [sameIdentity, Item.text, Item.createdAt]

theorem getElem?_append_cons_length {α : Type} (pre post : List α) (x : α) :
    (pre ++ x :: post)[pre.length]? = some x := by
  rw [List.getElem?_append_right (Nat.le_refl _), Nat.sub_self]
  exact List.getElem?_cons_zero

theorem set_append_cons_length {α : Type} (pre post : List α) (x y : α) :
    (pre ++ x :: post).set pre.length y = pre ++ y :: post := by
  simp

/-- One step of toggleComplete on a store in which the display item is the
only element with its identity. -/
theorem toggleComplete_at_unique (s : HomeScreen) (i : Nat) (o : Task) (pre post : List Item)
    (hd : s.filteredTasks[i]? = some (.obj o))
    (hl : s.tasks = pre ++ .obj o :: post)
    (hpre : ∀ t ∈ pre, sameIdentity t (.obj o) = false) :
    (toggleComplete s i).state
      = { s with
          tasks := pre ++ .obj { o with completed := !o.completed } :: post
          storage := (s.storage.setItem
            (.array (pre ++ .obj { o with completed := !o.completed } :: post))).1 } := by
  have hself : sameIdentity (.obj o) (.obj o) = true := by
    simp [sameIdentity, Item.text, Item.createdAt]
  simp only [toggleComplete, updateTask, hd, hl, findIndex_append_cons _ pre post _ hpre hself,
    getElem?_append_cons_length, set_append_cons_length, withCompleted, Item.completed]

theorem setItem_writeFails (st : AsyncStorage) (v : Stored) :
    (st.setItem v).1.writeFails = st.writeFails := by
  unfold AsyncStorage.setItem
  split <;> rfl

theorem setItem_calls (st : AsyncStorage) (v : Stored) :
    (st.setItem v).1.calls = st.calls ++ [.setItem v] := by
  unfold AsyncStorage.setItem
  split <;> rfl

theorem setItem_value (st : AsyncStorage) (v : Stored) (h : st.writeFails = false) :
    (st.setItem v).1.value = v := by
  simp [AsyncStorage.setItem, h]

/-! ## Theorems on the actions of the list -/

/-- C5, counterexample. With two stored tasks of the same identity, toggling
the second display item twice, the display list derived again in between,
completes the first stored task and leaves it completed: the store is not
back to what it was. -/
theorem toggle_twice_changes_a_twin :
    applyFiltersAndSort asciiLower twins.searchQuery twins.filter twins.sortBy twins.tasks
        = some twins.filteredTasks
      ∧ twins.filteredTasks[1]? = some (.obj (legacyRecord "milk"))
      ∧ (toggleTwice asciiLower twins 1 1).tasks
          = [.obj { legacyRecord "milk" with completed := true }, .obj (legacyRecord "milk")]
      ∧ (toggleTwice asciiLower twins 1 1).tasks ≠ twins.tasks := by
  decide

/-- The second toggle, when it hits the task toggled first: on a stored list
of task objects in which the display item d is the only element with its
identity, an item of the re-derived display list with that identity is the
toggled task, and toggling it gives back the stored list. -/
theorem toggleTwice_of_second_hit (toLowerCase : String → String)
    (s : HomeScreen) (i j : Nat) (d d2 : Item)
    (hobj : ∀ t ∈ s.tasks, t.isString = false)
    (hdisp : applyFiltersAndSort toLowerCase s.searchQuery s.filter s.sortBy s.tasks
      = some s.filteredTasks)
    (hd : s.filteredTasks[i]? = some d)
    (huniq : s.tasks.countP (fun t => sameIdentity t d) ≤ 1)
    (hd2 : (refresh toLowerCase (toggleComplete s i).state).state.filteredTasks[j]? = some d2)
    (hsame : sameIdentity d2 d = true) :
    (refresh toLowerCase (toggleComplete s i).state).threw = false
      ∧ (∃ k, s.tasks[k]? = some d
          ∧ (toggleComplete s i).state.tasks = s.tasks.set k (withCompleted d (!d.completed)))
      ∧ d2 = withCompleted d (!d.completed)
      ∧ (toggleTwice toLowerCase s i j).tasks = s.tasks
      ∧ (s.storage.writeFails = false →
          (toggleTwice toLowerCase s i j).storage.value = .array s.tasks) := by
  have hmem : d ∈ s.tasks :=
    mem_of_mem_display toLowerCase _ _ _ _ _ hdisp d (List.getElem?_mem hd)
  obtain ⟨o, rfl⟩ : ∃ o, d = .obj o := by
    cases d with
    | str x => exact absurd (hobj _ hmem) (by simp [Item.isString])
    | obj o => exact ⟨o, rfl⟩
  have hself : sameIdentity (.obj o) (.obj o) = true := by
    simp [sameIdentity, Item.text, Item.createdAt]
  obtain ⟨pre, post, hl, hpre, hpost⟩ :=
    split_at_unique (fun t => sameIdentity t (.obj o)) s.tasks _ hmem hself huniq
  have h1 := toggleComplete_at_unique s i o pre post hd hl hpre
  have hsome : (applyFiltersAndSort toLowerCase s.searchQuery s.filter s.sortBy
      (pre ++ .obj { o with completed := !o.completed } :: post)).isSome = true := by
    rw [applyFiltersAndSort_isSome_iff]
    intro hq t ht
    have h0 := (applyFiltersAndSort_isSome_iff toLowerCase s.searchQuery s.filter s.sortBy
      s.tasks).mp (by rw [hdisp]; rfl) hq
    rcases List.mem_append.mp ht with h | h
    · exact h0 t (by rw [hl]; exact List.mem_append_left _ h)
    · rcases List.mem_cons.mp h with rfl | h
      · have := h0 (.obj o) hmem
        simpa [matchesSearch] using this
      · exact h0 t (by rw [hl]; simp [h])
  obtain ⟨disp2, hdisp2⟩ := Option.isSome_iff_exists.mp hsome
  have h2 : refresh toLowerCase (toggleComplete s i).state
      = ⟨{ (toggleComplete s i).state with filteredTasks := disp2 }, false⟩ := by
    rw [h1]
    simp only [refresh, hdisp2]
  have hd2o : d2 = .obj { o with completed := !o.completed } := by
    rw [h2] at hd2
    have hm : d2 ∈ pre ++ .obj { o with completed := !o.completed } :: post :=
      mem_of_mem_display toLowerCase _ _ _ _ _ hdisp2 d2 (List.getElem?_mem hd2)
    rcases List.mem_append.mp hm with h | h
    · rw [hpre d2 h] at hsame
      exact absurd hsame (by decide)
    · rcases List.mem_cons.mp h with h | h
      · exact h
      · rw [hpost d2 h] at hsame
        exact absurd hsame (by decide)
  have h3 := toggleComplete_at_unique
    (refresh toLowerCase (toggleComplete s i).state).state j
    { o with completed := !o.completed } pre post
    (by rw [hd2, hd2o])
    (by rw [h2, h1])
    (fun t ht => by rw [sameIdentity_withCompleted]; exact hpre t ht)
  have hwf : (refresh toLowerCase (toggleComplete s i).state).state.storage.writeFails
      = s.storage.writeFails := by
    rw [h2, h1]
    exact setItem_writeFails _ _
  refine ⟨by rw [h2], ⟨pre.length, ?_, ?_⟩, ?_, ?_, ?_⟩
  · rw [hl]
    exact getElem?_append_cons_length pre post _
  · rw [h1, hl, set_append_cons_length]
    rfl
  · rw [hd2o]
    rfl
  · unfold toggleTwice
    rw [h3, hl]
    simp
  · intro hw
    unfold toggleTwice
    rw [h3, hl]
    simp only [Bool.not_not]
    exact setItem_value _ _ (hwf.trans hw)

/-- C6. When no stored element has the identity of the display item,
deleteTask returns normally, keeps the stored list as it is and hands that
same list to setItem, which becomes the persisted value when the write
succeeds. -/
theorem deleteTask_of_unknown_identity (s : HomeScreen) (index : Nat) (d : Item)
    (hd : s.filteredTasks[index]? = some d)
    (hmiss : ∀ t ∈ s.tasks, sameIdentity t d = false) :
    (deleteTask s index).threw = false
      ∧ (deleteTask s index).state.tasks = s.tasks
      ∧ (deleteTask s index).state.storage.calls
          = s.storage.calls ++ [.setItem (.array s.tasks)]
      ∧ (s.storage.writeFails = false →
          (deleteTask s index).state.storage.value = .array s.tasks) := by
  have hfilter : s.tasks.filter (fun t => survivesDelete t d) = s.tasks := by
    rw [List.filter_eq_self]
    intro t ht
    rw [survivesDelete_eq_not_sameIdentity, hmiss t ht]
    rfl
  have hdel : deleteTask s index
      = ⟨{ s with tasks := s.tasks,
                  storage := (s.storage.setItem (.array s.tasks)).1 }, false⟩ := by
    simp only [deleteTask, hd, hfilter]
  rw [hdel]
  exact ⟨rfl, rfl, setItem_calls _ _, fun hw => setItem_value _ _ hw⟩

/-- C6, at an example: the display list still shows task C, which is not
stored. -/
theorem deleteTask_of_stale_item :
    stale.filteredTasks[0]? = some taskC
      ∧ (∀ t ∈ stale.tasks, sameIdentity t taskC = false)
      ∧ (deleteTask stale 0).threw = false
      ∧ (deleteTask stale 0).state.tasks = [activeA, doneB]
      ∧ (deleteTask stale 0).state.storage.value = .array [activeA, doneB] :=
  have h := deleteTask_of_unknown_identity stale 0 taskC (by decide) (by decide)
  ⟨by decide, by decide, h.1, h.2.1, h.2.2.2 rfl⟩

/-! ## Lemmas on the editor -/

theorem trimChars_eq_nil_iff (cs : List Char) :
    trimChars cs = [] ↔ ∀ c ∈ cs, isStrWhiteSpaceChar c = true := by
  unfold trimChars
  rw [List.reverse_eq_nil_iff, List.dropWhile_eq_nil_iff]
  constructor
  · intro h
    have hall : ∀ x ∈ cs.dropWhile isStrWhiteSpaceChar, isStrWhiteSpaceChar x = true :=
      fun x hx => h x (List.mem_reverse.mpr hx)
    have hnil : cs.dropWhile isStrWhiteSpaceChar = [] := by
      rw [← List.dropWhile_idempotent]
      exact List.dropWhile_eq_nil_iff.mpr hall
    exact List.dropWhile_eq_nil_iff.mp hnil
  · intro h x hx
    have hnil : cs.dropWhile isStrWhiteSpaceChar = [] := List.dropWhile_eq_nil_iff.mpr h
    rw [hnil] at hx
    simp at hx

theorem trim_eq_empty_iff (t : String) :
    trim t = "" ↔ ∀ c ∈ t.data, isStrWhiteSpaceChar c = true := by
  rw [← trimChars_eq_nil_iff]
  unfold trim
  constructor
  · intro h
    exact congrArg String.data h
  · intro h
    rw [h]

theorem trim_ne_empty_iff (t : String) :
    trim t ≠ "" ↔ ∃ c ∈ t.data, isStrWhiteSpaceChar c = false := by
  rw [ne_eq, trim_eq_empty_iff]
  simp

theorem getItem_fst_calls (st : AsyncStorage) :
    st.getItem.1.calls = st.calls ++ [.getItem] := rfl

theorem getItem_fst_writeFails (st : AsyncStorage) :
    st.getItem.1.writeFails = st.writeFails := rfl

/-- What saveTask does once the title is valid, the read succeeds, the stored
text parses and the list w to write is determined. -/
theorem saveTask_writes (now : String) (s : AddTaskScreen) (L w : List Item)
    (hvalid : ∃ c ∈ s.task.data, isStrWhiteSpaceChar c = false)
    (hread : s.storage.readFails = false)
    (hL : parseStored s.storage.value = some L)
    (hw : (if isEditing s.editTask then assignAt L s.editIndex (.obj (taskObj now s))
           else some (L ++ [.obj (taskObj now s)])) = some w) :
    ∃ out, saveTask now s = some out
      ∧ out.storage.calls = s.storage.calls ++ [.getItem, .setItem (.array w)]
      ∧ (s.storage.writeFails = false →
          out.storage.value = .array w ∧ out.wentBack = true ∧ out.alerts = s.alerts) := by
  have hne : trim s.task ≠ "" := (trim_ne_empty_iff _).mpr hvalid
  unfold saveTask
  simp only [hne, if_false, AsyncStorage.getItem, hread, Bool.false_eq_true, hL, hw]
  by_cases hwf : s.storage.writeFails = true
  · simp [AsyncStorage.setItem, hwf]
  · simp [AsyncStorage.setItem, hwf]

theorem saveTask_edit_in_range (now : String) (s : AddTaskScreen) (L : List Item) (i : Nat)
    (hedit : isEditing s.editTask = true)
    (hidx : s.editIndex = some (Int.ofNat i))
    (hi : i < L.length)
    (hvalid : ∃ c ∈ s.task.data, isStrWhiteSpaceChar c = false)
    (hread : s.storage.readFails = false)
    (hL : parseStored s.storage.value = some L) :
    ∃ out, saveTask now s = some out
      ∧ out.storage.calls
          = s.storage.calls ++ [.getItem, .setItem (.array (L.set i (.obj (taskObj now s))))]
      ∧ (s.storage.writeFails = false →
          out.storage.value = .array (L.set i (.obj (taskObj now s)))
            ∧ out.wentBack = true ∧ out.alerts = s.alerts) :=
  saveTask_writes now s L _ hvalid hread hL (by simp [hedit, hidx, assignAt, hi])

/-! ## Theorems on the editor -/

/-- C7. With a title that is empty or all white space, saveTask only adds the
alert "Please enter a task.": the store, the record of calls made to it
included, is as before. Hence whenever saveTask has called the store, the
text of the record it built is the title of the form and is not empty after
trimming. -/
theorem saveTask_rejects_a_blank_title (now : String) (s : AddTaskScreen) :
    ((∀ c ∈ s.task.data, isStrWhiteSpaceChar c = true) →
        saveTask now s = some { s with alerts := s.alerts ++ ["Please enter a task."] })
      ∧ (∀ out, saveTask now s = some out → out.storage.calls ≠ s.storage.calls →
          (taskObj now s).text = s.task ∧ trim (taskObj now s).text ≠ "") := by
  constructor
  · intro h
    have ht : trim s.task = "" := (trim_eq_empty_iff _).mpr h
    simp [saveTask, ht]
  · intro out hout hcalls
    refine ⟨rfl, ?_⟩
    intro ht
    have ht2 : trim s.task = "" := ht
    simp only [saveTask, ht2, if_true, Option.some.injEq] at hout
    subst hout
    exact hcalls rfl

/-- C7, at examples: a title of two spaces is rejected without a call to the
store, and the title Buy milk leads to calls. -/
theorem saveTask_rejects_two_spaces :
    (∀ c ∈ blankForm.task.data, isStrWhiteSpaceChar c = true)
      ∧ saveTask "T0" blankForm
          = some { blankForm with alerts := ["Please enter a task."] }
      ∧ trim (taskObj "T0" { blankForm with task := "Buy milk" }).text ≠ "" :=
  ⟨by decide,
    (saveTask_rejects_a_blank_title "T0" blankForm).1 (by decide),
    ((saveTask_rejects_a_blank_title "T0" { blankForm with task := "Buy milk" }).2
      _ rfl (by decide)).2⟩

/-- C8. In create mode, with a title t that is not blank and the form
otherwise as first rendered, saveTask reads the persisted list L and hands
setItem the list L followed by the one record { text: t, completed: false,
priority: "normal", category: null, dueDate: null, notes: null, createdAt:
now }; when the write succeeds this is the new persisted value. -/
theorem saveTask_create_appends_one_record (toDateString : String → String)
    (now t : String) (st : AsyncStorage) (alerts : List String) (L : List Item)
    (ht : ∃ c ∈ t.data, isStrWhiteSpaceChar c = false)
    (hread : st.readFails = false)
    (hL : parseStored st.value = some L) :
    ∃ out, saveTask now { AddTaskScreen.initial toDateString none st alerts with task := t }
        = some out
      ∧ out.storage.calls = st.calls ++ [.getItem, .setItem (.array (L ++ [.obj
          { text := t, completed := false, priority := .str "normal", category := .null,
            dueDate := .null, notes := .null, createdAt := .str now }]))]
      ∧ (st.writeFails = false →
          out.storage.value = .array (L ++ [.obj
            { text := t, completed := false, priority := .str "normal", category := .null,
              dueDate := .null, notes := .null, createdAt := .str now }])) := by
  obtain ⟨out, h1, h2, h3⟩ := saveTask_writes now
    { AddTaskScreen.initial toDateString none st alerts with task := t } L
    (L ++ [.obj { text := t, completed := false, priority := .str "normal", category := .null,
                  dueDate := .null, notes := .null, createdAt := .str now }])
    ht hread hL (by rfl)
  exact ⟨out, h1, h2, fun hw => (h3 hw).1⟩

/-- C8, at the example of the specification: from the empty store, creating
Buy milk at time T0 persists the one record Buy milk. -/
theorem saveTask_creates_buy_milk :
    (∃ c ∈ "Buy milk".data, isStrWhiteSpaceChar c = false)
      ∧ ∃ out, saveTask "T0"
            { AddTaskScreen.initial (fun d => d) none emptyStore [] with task := "Buy milk" }
          = some out
        ∧ out.storage.value = .array [.obj
            { text := "Buy milk", completed := false, priority := .str "normal",
              category := .null, dueDate := .null, notes := .null, createdAt := .str "T0" }] :=
  have hne : ∃ c ∈ "Buy milk".data, isStrWhiteSpaceChar c = false := ⟨'B', by decide, by decide⟩
  ⟨hne,
    (saveTask_create_appends_one_record (fun d => d) "T0" "Buy milk" emptyStore [] []
      hne rfl rfl).imp (fun _ h => ⟨h.1, h.2.2 rfl⟩)⟩

/-- C9, counterexample. Editing the legacy record milk, which carries no
createdAt, writes a record whose createdAt is the time of the edit. -/
theorem saveTask_edit_dates_a_legacy_record :
    (Item.obj (legacyRecord "milk")).createdAt = .undefined
      ∧ (saveTask "2024-06-01T00:00:00.000Z" editingLegacy).map (fun out => out.storage.value)
          = some (.array [.obj
              { text := "bread", completed := false, priority := .str "normal",
                category := .null, dueDate := .null, notes := .null,
                createdAt := .str "2024-06-01T00:00:00.000Z" }])
      ∧ (taskObj "2024-06-01T00:00:00.000Z" editingLegacy).createdAt
          ≠ (legacyRecord "milk").createdAt := by
  decide

/-- C9, amended. In edit mode on a task object o, at a position inside the
persisted list and with a valid title, the record saveTask hands to setItem
at that position has the completed value of o; it has the createdAt of o when
that is a non-empty string, and the current timestamp when o carries no such
createdAt. -/
theorem saveTask_edit_keeps_completed_and_createdAt (now : String) (s : AddTaskScreen)
    (o : Task) (L : List Item) (i : Nat)
    (htask : s.editTask = some (.obj o))
    (hidx : s.editIndex = some (Int.ofNat i))
    (hi : i < L.length)
    (hvalid : ∃ c ∈ s.task.data, isStrWhiteSpaceChar c = false)
    (hread : s.storage.readFails = false)
    (hL : parseStored s.storage.value = some L) :
    ∃ out w r, saveTask now s = some out
      ∧ out.storage.calls = s.storage.calls ++ [.getItem, .setItem (.array w)]
      ∧ w[i]? = some (.obj r)
      ∧ r.completed = o.completed
      ∧ (o.createdAt.truthy = true → r.createdAt = o.createdAt)
      ∧ (o.createdAt.truthy = false → r.createdAt = .str now) := by
  obtain ⟨out, h1, h2, _⟩ := saveTask_edit_in_range now s L i (by rw [htask]; rfl) hidx hi
    hvalid hread hL
  refine ⟨out, _, taskObj now s, h1, h2, ?_, ?_, ?_, ?_⟩
  · simp [hi]
  · simp only [taskObj, htask, isEditing, Item.completed, Bool.true_and]
    cases o.completed <;> rfl
  · intro h
    simp [taskObj, htask, isEditing, Item.createdAt, h]
  · intro h
    simp [taskObj, htask, isEditing, Item.createdAt, h]

/-- C9, amended, at the example of the specification: editing oldRecord,
created at T1 and completed, keeps both. -/
theorem saveTask_edit_keeps_those_of_oldRecord :
    editingOld.editTask = some (.obj oldRecord)
      ∧ (∃ c ∈ editingOld.task.data, isStrWhiteSpaceChar c = false)
      ∧ ∃ out w r, saveTask "T9" editingOld = some out
        ∧ out.storage.calls = editingOld.storage.calls ++ [.getItem, .setItem (.array w)]
        ∧ w[2]? = some (.obj r)
        ∧ r.completed = oldRecord.completed
        ∧ (oldRecord.createdAt.truthy = true → r.createdAt = oldRecord.createdAt)
        ∧ (oldRecord.createdAt.truthy = false → r.createdAt = .str "T9") :=
  have hne : ∃ c ∈ editingOld.task.data, isStrWhiteSpaceChar c = false :=
    ⟨'N', by decide, by decide⟩
  ⟨rfl, hne,
    saveTask_edit_keeps_completed_and_createdAt "T9" editingOld oldRecord
      [activeA, .str "legacy", .obj oldRecord] 2 rfl rfl (by decide) hne rfl rfl⟩

/-- C10. In edit mode on the task t, at a position i inside the persisted
list L and with a valid title, saveTask hands setItem a list of the length of
L that holds the entry of L at every position other than i and, at position
i, the record built from the form: its text, priority, category, dueDate and
notes are those of the form (an empty category or notes and an unset due
date become null), its completed is that of t, and its createdAt is that of
t, or the current timestamp when t carries none. When the write succeeds
this list is the new persisted value. -/
theorem saveTask_edit_replaces_one_position (now : String) (s : AddTaskScreen)
    (t : Item) (L : List Item) (i : Nat)
    (htask : s.editTask = some t)
    (hedit : isEditing s.editTask = true)
    (hidx : s.editIndex = some (Int.ofNat i))
    (hi : i < L.length)
    (hvalid : ∃ c ∈ s.task.data, isStrWhiteSpaceChar c = false)
    (hread : s.storage.readFails = false)
    (hL : parseStored s.storage.value = some L) :
    ∃ out w, saveTask now s = some out
      ∧ out.storage.calls = s.storage.calls ++ [.getItem, .setItem (.array w)]
      ∧ w.length = L.length
      ∧ w[i]? = some (Item.obj
          { text := s.task
            completed := t.completed
            priority := .str s.priority
            category := if s.category = "" then .null else .str s.category
            dueDate :=
              match s.dueDate with
              | some d => .str d
              | none => .null
            notes := if s.notes = "" then .null else .str s.notes
            createdAt := if t.createdAt.truthy = true then t.createdAt else .str now })
      ∧ (∀ k, k ≠ i → w[k]? = L[k]?)
      ∧ (s.storage.writeFails = false → out.storage.value = .array w) := by
  obtain ⟨out, h1, h2, h3⟩ := saveTask_edit_in_range now s L i hedit hidx hi hvalid hread hL
  have hrecord : taskObj now s
      = { text := s.task
          completed := t.completed
          priority := .str s.priority
          category := if s.category = "" then .null else .str s.category
          dueDate :=
            match s.dueDate with
            | some d => .str d
            | none => .null
          notes := if s.notes = "" then .null else .str s.notes
          createdAt := if t.createdAt.truthy = true then t.createdAt else .str now } := by
    have hedit2 : isEditing (some t) = true := by
      rw [← htask]
      exact hedit
    have hc : (if (isEditing (some t) && t.completed) = true then t.completed else false)
        = t.completed := by
      rw [hedit2]
      cases t.completed <;> rfl
    have hcat : (if s.category ≠ "" then Field.str s.category else Field.null)
        = if s.category = "" then Field.null else Field.str s.category := by
      by_cases h : s.category = "" <;> simp [h]
    have hnotes : (if s.notes ≠ "" then Field.str s.notes else Field.null)
        = if s.notes = "" then Field.null else Field.str s.notes := by
      by_cases h : s.notes = "" <;> simp [h]
    have hcr : (if (isEditing (some t) && t.createdAt.truthy) = true then t.createdAt
        else Field.str now)
        = if t.createdAt.truthy = true then t.createdAt else Field.str now := by
      rw [hedit2]
      cases t.createdAt.truthy <;> rfl
    simp only [taskObj, htask, hc, hcat, hnotes, hcr]
  refine ⟨out, _, h1, h2, by simp, ?_, ?_, fun hw => (h3 hw).1⟩
  · rw [← hrecord]
    simp [hi]
  · intro k hk
    exact List.getElem?_set_ne (Ne.symm hk)

/-- C10, at the example of the specification: editing the task at position 2
from Old to New writes { text: New, completed: true, createdAt: T1 } at
position 2 and leaves positions 0 and 1 as they were. -/
theorem saveTask_edit_old_to_new :
    editingOld.editTask = some (.obj oldRecord)
      ∧ isEditing editingOld.editTask = true
      ∧ (∃ c ∈ editingOld.task.data, isStrWhiteSpaceChar c = false)
      ∧ (∃ out w, saveTask "T9" editingOld = some out
          ∧ out.storage.calls = editingOld.storage.calls ++ [.getItem, .setItem (.array w)]
          ∧ w.length = 3
          ∧ w[2]? = some (Item.obj
              { text := "New", completed := true, priority := .str "high", category := .null,
                dueDate := .null, notes := .null, createdAt := .str "T1" })
          ∧ (∀ k, k ≠ 2 → w[k]? = [activeA, .str "legacy", .obj oldRecord][k]?)
          ∧ (editingOld.storage.writeFails = false → out.storage.value = .array w))
      ∧ (saveTask "T9" editingOld).map (fun out => out.storage.value)
          = some (.array [activeA, .str "legacy", .obj
              { text := "New", completed := true, priority := .str "high", category := .null,
                dueDate := .null, notes := .null, createdAt := .str "T1" }]) :=
  have hne : ∃ c ∈ editingOld.task.data, isStrWhiteSpaceChar c = false :=
    ⟨'N', by decide, by decide⟩
  ⟨rfl, rfl, hne,
    saveTask_edit_replaces_one_position "T9" editingOld (.obj oldRecord)
      [activeA, .str "legacy", .obj oldRecord] 2 rfl rfl rfl (by decide) hne rfl rfl,
    by decide⟩

/-! ## Lemmas on loading and on the search by identity -/

theorem findIndex_eq_none {α : Type} (p : α → Bool) :
    ∀ l : List α, findIndex p l = none → ∀ t ∈ l, p t = false
  | [], _, t, ht => by simp at ht
  | x :: xs, h, t, ht => by
    simp only [findIndex] at h
    by_cases hx : p x = true
    · simp [hx] at h
    · simp only [hx, Bool.false_eq_true, if_false, Option.map_eq_none'] at h
      rcases List.mem_cons.mp ht with rfl | hmem
      · simpa using hx
      · exact findIndex_eq_none p xs h t hmem

theorem findIndex_eq_some {α : Type} (p : α → Bool) :
    ∀ (l : List α) (k : Nat), findIndex p l = some k →
      ∃ x, l[k]? = some x ∧ p x = true ∧ ∀ m t, m < k → l[m]? = some t → p t = false
  | [], k, h => by simp [findIndex] at h
  | x :: xs, k, h => by
    simp only [findIndex] at h
    by_cases hx : p x = true
    · simp only [hx, if_true, Option.some.injEq] at h
      subst h
      exact ⟨x, List.getElem?_cons_zero, hx, fun m t hm _ => absurd hm (Nat.not_lt_zero m)⟩
    · simp only [hx, Bool.false_eq_true, if_false, Option.map_eq_some'] at h
      obtain ⟨j, hj, rfl⟩ := h
      obtain ⟨y, hy, hpy, hbefore⟩ := findIndex_eq_some p xs j hj
      refine ⟨y, by simpa using hy, hpy, ?_⟩
      intro m t hm ht
      cases m with
      | zero =>
        simp only [List.getElem?_cons_zero, Option.some.injEq] at ht
        subst ht
        simpa using hx
      | succ n =>
        simp only [List.getElem?_cons_succ] at ht
        exact hbefore n t (by omega) ht

theorem findIndex_isSome_of_mem {α : Type} (p : α → Bool) (l : List α) (t : α)
    (ht : t ∈ l) (hp : p t = true) : ∃ k, findIndex p l = some k := by
  cases h : findIndex p l with
  | some k => exact ⟨k, rfl⟩
  | none =>
    have := findIndex_eq_none p l h t ht
    rw [hp] at this
    exact absurd this (by decide)

theorem loadTasks_tasks_of_array (toLowerCase : String → String) (q f sortBy : String)
    (s : HomeScreen) (S : List Item)
    (hread : s.storage.readFails = false) (hS : s.storage.value = .array S) :
    (loadTasks toLowerCase q f sortBy s).tasks = S.map normalizeItem := by
  unfold loadTasks
  simp only [AsyncStorage.getItem, hread, Bool.false_eq_true, if_false, hS]
  cases applyFiltersAndSort toLowerCase q f sortBy (S.map normalizeItem) <;> rfl

theorem sameIdentity_of_object (t d : Item) (h : t.isString = false) :
    sameIdentity t d = true ↔ (t.text = d.text ∧ t.createdAt = d.createdAt) := by
  cases t with
  | str x => simp [Item.isString] at h
  | obj o => simp [sameIdentity, Item.text, Item.createdAt]

theorem survivesDelete_of_object (t d : Item) (h : t.isString = false) :
    survivesDelete t d = decide (t.text ≠ d.text ∨ t.createdAt ≠ d.createdAt) := by
  cases t with
  | str x => simp [Item.isString] at h
  | obj o =>
    simp only [survivesDelete, Item.text, Item.createdAt]
    by_cases h1 : Field.str o.text = d.text <;> by_cases h2 : o.createdAt = d.createdAt <;>
      simp [h1, h2]

theorem setItem_value_of_failure (st : AsyncStorage) (v : Stored) (h : st.writeFails = true) :
    (st.setItem v).1.value = st.value ∧ (st.setItem v).2 = false := by
  simp [AsyncStorage.setItem, h]

/-- What updateTask does when the display item d has a match in the store:
the first match, at position k, is replaced. -/
theorem updateTask_at_first_match (s : HomeScreen) (i : Nat) (c : Bool) (d : Item) (k : Nat)
    (hd : s.filteredTasks[i]? = some d)
    (hk : findIndex (fun t => sameIdentity t d) s.tasks = some k) :
    ∃ old, s.tasks[k]? = some old ∧ sameIdentity old d = true
      ∧ (∀ m t, m < k → s.tasks[m]? = some t → sameIdentity t d = false)
      ∧ updateTask s i c
          = ⟨{ s with
               tasks := s.tasks.set k (withCompleted old c)
               storage := (s.storage.setItem
                 (.array (s.tasks.set k (withCompleted old c)))).1 },
             !(s.storage.setItem (.array (s.tasks.set k (withCompleted old c)))).2⟩ := by
  obtain ⟨old, hold, hp, hbefore⟩ := findIndex_eq_some _ s.tasks k hk
  refine ⟨old, hold, hp, hbefore, ?_⟩
  simp only [updateTask, hd, hk, hold]

/-! ## Theorems on loading, on failed writes and on deletion -/

/-- C11. Round trip: once the sequence S of task records and bare strings is
persisted under the key tasks, loadTasks leaves an in-memory list of the
length of S that holds, at the position of each bare string x, the record
{ text: x, completed: false } with no other property, and at the position of
each task record that same record. -/
theorem loadTasks_after_persisting_normalizes (toLowerCase : String → String)
    (q f sortBy : String) (s : HomeScreen) (S : List Item)
    (hwrite : s.storage.writeFails = false)
    (hread : s.storage.readFails = false) :
    (loadTasks toLowerCase q f sortBy
        { s with storage := (s.storage.setItem (.array S)).1 }).tasks.length = S.length
      ∧ ∀ k : Nat,
        (∀ x : String, S[k]? = some (Item.str x) →
          (loadTasks toLowerCase q f sortBy
              { s with storage := (s.storage.setItem (.array S)).1 }).tasks[k]?
            = some (Item.obj
                { text := x, completed := false, priority := .undefined,
                  category := .undefined, dueDate := .undefined,
                  notes := .undefined, createdAt := .undefined }))
        ∧ (∀ t : Task, S[k]? = some (Item.obj t) →
          (loadTasks toLowerCase q f sortBy
              { s with storage := (s.storage.setItem (.array S)).1 }).tasks[k]?
            = some (Item.obj t)) := by
  have hval : (s.storage.setItem (.array S)).1.value = .array S := setItem_value _ _ hwrite
  have hrd : (s.storage.setItem (.array S)).1.readFails = false := by
    simp [AsyncStorage.setItem, hwrite, hread]
  have hload : (loadTasks toLowerCase q f sortBy
      { s with storage := (s.storage.setItem (.array S)).1 }).tasks = S.map normalizeItem :=
    loadTasks_tasks_of_array toLowerCase q f sortBy _ S hrd hval
  rw [hload]
  refine ⟨List.length_map _ _, fun k => ⟨?_, ?_⟩⟩
  · intro x hx
    rw [List.getElem?_map, hx]
    rfl
  · intro t ht
    rw [List.getElem?_map, ht]
    rfl

/-- C11, at an example: the persisted sequence ["legacy", A] loads as the
record of legacy followed by A. -/
theorem loadTasks_after_persisting_a_legacy_string :
    pair.storage.writeFails = false
      ∧ pair.storage.readFails = false
      ∧ (loadTasks asciiLower "" "all" "date"
          { pair with storage := (pair.storage.setItem (.array [.str "legacy", activeA])).1 }).tasks
        = [.obj { text := "legacy", completed := false, priority := .undefined,
                  category := .undefined, dueDate := .undefined, notes := .undefined,
                  createdAt := .undefined }, activeA]
      ∧ (loadTasks asciiLower "" "all" "date"
          { pair with storage :=
              (pair.storage.setItem (.array [.str "legacy", activeA])).1 }).tasks.length = 2 :=
  ⟨rfl, rfl, by decide,
    (loadTasks_after_persisting_normalizes asciiLower "" "all" "date" pair
      [.str "legacy", activeA] rfl rfl).1⟩

/-- C12, counterexample. On a screen that shows [A, B], a loadTasks whose
read rejects, or whose stored text does not parse, leaves both the task list
and the display list at [A, B]: neither becomes empty. -/
theorem loadTasks_failure_leaves_the_lists_filled :
    unreadable.storage.readFails = true
      ∧ (loadTasks asciiLower "" "all" "date" unreadable).tasks = [activeA, doneB]
      ∧ (loadTasks asciiLower "" "all" "date" unreadable).filteredTasks = [activeA, doneB]
      ∧ garbled.storage.value = .invalid
      ∧ (loadTasks asciiLower "" "all" "date" garbled).tasks = [activeA, doneB]
      ∧ (loadTasks asciiLower "" "all" "date" garbled).filteredTasks = [activeA, doneB]
      ∧ (loadTasks asciiLower "" "all" "date" unreadable).tasks ≠ [] := by
  decide

/-- C12, amended. When the read rejects or the stored text does not parse,
loadTasks returns with the alert "Could not load tasks." added and with the
task list and the display list as they were before; they are empty exactly
when they were empty before, as on the first load. -/
theorem loadTasks_failure_keeps_the_lists (toLowerCase : String → String)
    (q f sortBy : String) (s : HomeScreen)
    (hfail : s.storage.readFails = true ∨ s.storage.value = .invalid) :
    (loadTasks toLowerCase q f sortBy s).tasks = s.tasks
      ∧ (loadTasks toLowerCase q f sortBy s).filteredTasks = s.filteredTasks
      ∧ (loadTasks toLowerCase q f sortBy s).alerts = s.alerts ++ ["Could not load tasks."]
      ∧ (loadTasks toLowerCase q f sortBy s).storage.value = s.storage.value := by
  unfold loadTasks
  by_cases hr : s.storage.readFails = true
  · simp [AsyncStorage.getItem, hr]
  · rcases hfail with h | h
    · exact absurd h hr
    · simp [AsyncStorage.getItem, hr, h]

/-- C12, amended, at examples: the first load, from the empty lists, ends
with empty lists and one alert; a later load on the screen [A, B] keeps
[A, B]. -/
theorem loadTasks_failure_on_first_and_later_load :
    ({ unreadable with tasks := [], filteredTasks := [] } : HomeScreen).storage.readFails = true
      ∧ (loadTasks asciiLower "" "all" "date"
          { unreadable with tasks := [], filteredTasks := [] }).tasks = []
      ∧ (loadTasks asciiLower "" "all" "date"
          { unreadable with tasks := [], filteredTasks := [] }).filteredTasks = []
      ∧ (loadTasks asciiLower "" "all" "date" garbled).alerts = ["Could not load tasks."] :=
  have h := loadTasks_failure_keeps_the_lists asciiLower "" "all" "date"
    { unreadable with tasks := [], filteredTasks := [] } (Or.inl rfl)
  ⟨rfl, h.1, h.2.1,
    (loadTasks_failure_keeps_the_lists asciiLower "" "all" "date" garbled (Or.inr rfl)).2.2.1⟩

/-- C13, counterexample. With a store whose writes reject, toggling task A
of [A, B] leaves A completed in the in-memory list, which so differs from
the list before the action, and adds no alert. -/
theorem toggleComplete_failed_write_changes_the_list :
    unwritable.storage.writeFails = true
      ∧ unwritable.filteredTasks[0]? = some activeA
      ∧ (toggleComplete unwritable 0).state.tasks
          = [.obj { legacyRecord "A" with completed := true }, doneB]
      ∧ (toggleComplete unwritable 0).state.tasks ≠ unwritable.tasks
      ∧ (toggleComplete unwritable 0).state.alerts = unwritable.alerts
      ∧ (toggleComplete unwritable 0).state.storage.value = unwritable.storage.value := by
  decide

/-- C13, amended. When the write rejects during a toggle of the display item
d, the in-memory list is not put back. The first stored task with the
identity of d is replaced by the same task with completed set to the negation
of the completed flag of d (a bare string by its record with that flag),
every other position is as before, and the persisted value is the one from
before the action. When that stored task had the completed value of d, as it
has when it is d itself, the in-memory list differs from the list before the
action, and from the persisted list when the two agreed before. -/
theorem toggleComplete_failed_write_keeps_the_update (s : HomeScreen) (i : Nat)
    (d t : Item)
    (hd : s.filteredTasks[i]? = some d)
    (ht : t ∈ s.tasks)
    (hsame : sameIdentity t d = true)
    (hw : s.storage.writeFails = true) :
    ∃ k old, s.tasks[k]? = some old ∧ sameIdentity old d = true
      ∧ (∀ m u, m < k → s.tasks[m]? = some u → sameIdentity u d = false)
      ∧ (∀ o : Task, old = Item.obj o →
          (toggleComplete s i).state.tasks
            = s.tasks.set k (Item.obj { o with completed := !d.completed }))
      ∧ (∀ x : String, old = Item.str x →
          (toggleComplete s i).state.tasks
            = s.tasks.set k (Item.obj
                { text := x, completed := !d.completed, priority := .undefined,
                  category := .undefined, dueDate := .undefined, notes := .undefined,
                  createdAt := .undefined }))
      ∧ (∃ r : Task, (toggleComplete s i).state.tasks[k]? = some (Item.obj r)
          ∧ r.completed = !d.completed)
      ∧ (∀ m, m ≠ k → (toggleComplete s i).state.tasks[m]? = s.tasks[m]?)
      ∧ (toggleComplete s i).state.storage.value = s.storage.value
      ∧ (old.completed = d.completed → (toggleComplete s i).state.tasks ≠ s.tasks)
      ∧ (old.completed = d.completed → s.storage.value = .array s.tasks →
          (toggleComplete s i).state.storage.value
            ≠ .array (toggleComplete s i).state.tasks) := by
  obtain ⟨k, hk⟩ := findIndex_isSome_of_mem (fun u => sameIdentity u d) s.tasks t ht hsame
  obtain ⟨old, hold, hp, hbefore, hupd⟩ := updateTask_at_first_match s i (!d.completed) d k hd hk
  have hlt : k < s.tasks.length := (List.getElem?_eq_some.mp hold).1
  have htoggle : toggleComplete s i = updateTask s i (!d.completed) := by
    simp only [toggleComplete, hd]
  have htasks : (toggleComplete s i).state.tasks
      = s.tasks.set k (withCompleted old (!d.completed)) := by
    rw [htoggle, hupd]
  have hvalue : (toggleComplete s i).state.storage.value = s.storage.value := by
    rw [htoggle, hupd]
    exact (setItem_value_of_failure _ _ hw).1
  have hat : (toggleComplete s i).state.tasks[k]? = some (withCompleted old (!d.completed)) := by
    rw [htasks]
    simp [hlt]
  have hne : old.completed = d.completed → (toggleComplete s i).state.tasks ≠ s.tasks := by
    intro hc heq
    rw [heq, hold, Option.some.injEq] at hat
    have hflag : (withCompleted old (!d.completed)).completed = !d.completed := by
      cases old <;> rfl
    rw [← hat, hc] at hflag
    cases hdc : d.completed <;> simp [hdc] at hflag
  refine ⟨k, old, hold, hp, hbefore, ?_, ?_, ?_, ?_, hvalue, hne, ?_⟩
  · intro o ho
    rw [htasks, ho]
    rfl
  · intro x hx
    rw [htasks, hx]
    rfl
  · cases old with
    | str x => exact ⟨_, hat, rfl⟩
    | obj o => exact ⟨_, hat, rfl⟩
  · intro m hm
    rw [htasks]
    exact List.getElem?_set_ne (Ne.symm hm)
  · intro hc hsync heq
    rw [hvalue, hsync, Stored.array.injEq] at heq
    exact hne hc heq.symm

/-- C13, amended, at an example: on the screen [A, B] with a store whose
writes reject, toggling A leaves [A completed, B] in memory and [A, B]
persisted. -/
theorem toggleComplete_failed_write_on_pair :
    unwritable.filteredTasks[0]? = some activeA
      ∧ activeA ∈ unwritable.tasks
      ∧ sameIdentity activeA activeA = true
      ∧ unwritable.storage.writeFails = true
      ∧ (toggleComplete unwritable 0).state.tasks
          = [Item.obj
              { text := "A", completed := true, priority := .undefined,
                category := .undefined, dueDate := .undefined, notes := .undefined,
                createdAt := .undefined }, doneB]
      ∧ (toggleComplete unwritable 0).state.storage.value = .array [activeA, doneB]
      ∧ ∃ (k : Nat) (old : Item), unwritable.tasks[k]? = some old
        ∧ (∃ r : Task, (toggleComplete unwritable 0).state.tasks[k]? = some (Item.obj r)
            ∧ r.completed = !activeA.completed)
        ∧ (old.completed = activeA.completed →
            (toggleComplete unwritable 0).state.tasks ≠ unwritable.tasks) :=
  ⟨by decide, by decide, by decide, rfl, by decide, by decide,
    (toggleComplete_failed_write_keeps_the_update unwritable 0 activeA activeA
      (by decide) (by decide) (by decide) rfl).imp
      (fun _ h => h.imp (fun _ h2 => ⟨h2.1, h2.2.2.2.2.2.1, h2.2.2.2.2.2.2.2.2.1⟩))⟩

/-- C14. On a stored list of task records, deleteTask keeps exactly the
stored tasks whose text or createdAt differs from that of the display item,
in their order, so every task with the identity of the item goes; updateTask
either finds no stored task with that identity and changes nothing, or
replaces the first such task and leaves every other position as it was. -/
theorem deleteTask_removes_every_match (s : HomeScreen) (i : Nat) (d : Item)
    (hd : s.filteredTasks[i]? = some d)
    (hobj : ∀ t ∈ s.tasks, t.isString = false) :
    (deleteTask s i).state.tasks
        = s.tasks.filter (fun t => decide (t.text ≠ d.text ∨ t.createdAt ≠ d.createdAt))
      ∧ ∀ c,
        ((∀ t ∈ s.tasks, ¬ (t.text = d.text ∧ t.createdAt = d.createdAt))
            ∧ (updateTask s i c).state.tasks = s.tasks)
          ∨ ∃ k old, s.tasks[k]? = some old
            ∧ (old.text = d.text ∧ old.createdAt = d.createdAt)
            ∧ (∀ m u, m < k → s.tasks[m]? = some u →
                ¬ (u.text = d.text ∧ u.createdAt = d.createdAt))
            ∧ (updateTask s i c).state.tasks = s.tasks.set k (withCompleted old c)
            ∧ (∀ m, m ≠ k → (updateTask s i c).state.tasks[m]? = s.tasks[m]?) := by
  constructor
  · simp only [deleteTask, hd]
    apply List.filter_congr
    intro t ht
    exact survivesDelete_of_object t d (hobj t ht)
  · intro c
    cases hk : findIndex (fun t => sameIdentity t d) s.tasks with
    | none =>
      left
      refine ⟨?_, ?_⟩
      · intro t ht hsame
        have hfalse := findIndex_eq_none _ s.tasks hk t ht
        rw [(sameIdentity_of_object t d (hobj t ht)).mpr hsame] at hfalse
        exact absurd hfalse (by decide)
      · simp only [updateTask, hd, hk]
    | some k =>
      right
      obtain ⟨old, hold, hp, hbefore, hupd⟩ := updateTask_at_first_match s i c d k hd hk
      refine ⟨k, old, hold,
        (sameIdentity_of_object old d (hobj old (List.getElem?_mem hold))).mp hp, ?_, ?_, ?_⟩
      · intro m u hm hu hsame
        have hfalse := hbefore m u hm hu
        rw [(sameIdentity_of_object u d (hobj u (List.getElem?_mem hu))).mpr hsame] at hfalse
        exact absurd hfalse (by decide)
      · rw [hupd]
      · intro m hm
        rw [hupd]
        exact List.getElem?_set_ne (Ne.symm hm)

/-- C14, at an example: on the store [milk, milk] of two equal records,
deleting the second display item empties the stored list, two tasks at once,
while updating it completes the first stored task only. -/
theorem deleteTask_removes_both_twins :
    twins.filteredTasks[1]? = some (.obj (legacyRecord "milk"))
      ∧ (∀ t ∈ twins.tasks, t.isString = false)
      ∧ (deleteTask twins 1).state.tasks
          = twins.tasks.filter (fun t => decide
              (t.text ≠ (Item.obj (legacyRecord "milk")).text
                ∨ t.createdAt ≠ (Item.obj (legacyRecord "milk")).createdAt))
      ∧ twins.tasks.length = 2
      ∧ (deleteTask twins 1).state.tasks = []
      ∧ (updateTask twins 1 true).state.tasks
          = [.obj { legacyRecord "milk" with completed := true }, .obj (legacyRecord "milk")] :=
  ⟨by decide, by decide,
    (deleteTask_removes_every_match twins 1 (.obj (legacyRecord "milk"))
      (by decide) (by decide)).1,
    by decide, by decide, by decide⟩

/-! ## Lemmas on a toggle and the display list derived after it -/

theorem flipMatching_of_other (d t : Item) (h : sameIdentity t d = false) :
    flipMatching d t = t := by
  cases t with
  | str x => rfl
  | obj o => simp [flipMatching, h]

theorem flipMatching_self (o : Task) :
    flipMatching (.obj o) (.obj o) = .obj { o with completed := !o.completed } := by
  simp [flipMatching, sameIdentity, Item.text, Item.createdAt, Item.completed]

theorem matchesSearch_flipMatching (toLowerCase : String → String) (q : String) (d t : Item) :
    matchesSearch toLowerCase q (flipMatching d t) = matchesSearch toLowerCase q t := by
  cases t with
  | str x => rfl
  | obj o =>
    by_cases h : sameIdentity (.obj o) d = true <;> simp [flipMatching, h, matchesSearch]

theorem priorityOperand_flipMatching (d t : Item) :
    priorityOperand (flipMatching d t) = priorityOperand t := by
  cases t with
  | str x => rfl
  | obj o =>
    by_cases h : sameIdentity (.obj o) d = true <;>
      simp [flipMatching, h, priorityOperand, Item.priority]

theorem dateOperand_flipMatching (d t : Item) :
    dateOperand (flipMatching d t) = dateOperand t := by
  cases t with
  | str x => rfl
  | obj o =>
    by_cases h : sameIdentity (.obj o) d = true <;>
      simp [flipMatching, h, dateOperand, Item.createdAt]

theorem filterChecked_map_invariant (p : Item → Option Bool) (g : Item → Item)
    (h : ∀ t, p (g t) = p t) :
    ∀ l : List Item, filterChecked p (l.map g) = (filterChecked p l).map (List.map g)
  | [] => rfl
  | t :: ts => by
    have ih := filterChecked_map_invariant p g h ts
    simp only [List.map_cons, filterChecked, h t, ih]
    cases p t with
    | none => rfl
    | some keep =>
      cases filterChecked p ts with
      | none => rfl
      | some r => cases keep <;> rfl

theorem arraySort_map_invariant (cmp : Item → Item → JSNumber) (g : Item → Item)
    (h : ∀ a b, cmp (g a) (g b) = cmp a b) (l : List Item) :
    arraySort cmp (l.map g) = (arraySort cmp l).map g := by
  unfold arraySort
  exact (List.map_insertionSort (keepsOrder cmp) (keepsOrder cmp) g l
    (fun a _ b _ => by simp only [keepsOrder, h])).symm

theorem sortStage_map_flipMatching (sortBy : String) (d : Item) (l : List Item) :
    sortStage sortBy (l.map (flipMatching d)) = (sortStage sortBy l).map (flipMatching d) := by
  unfold sortStage
  split
  · exact arraySort_map_invariant _ _
      (fun a b => by simp only [comparePriority, priorityOperand_flipMatching]) l
  · split
    · exact arraySort_map_invariant _ _
        (fun a b => by simp only [compareDate, dateOperand_flipMatching]) l
    · rfl

theorem applyFiltersAndSort_all_map_flipMatching (toLowerCase : String → String)
    (q sortBy : String) (d : Item) (l : List Item) :
    applyFiltersAndSort toLowerCase q "all" sortBy (l.map (flipMatching d))
      = (applyFiltersAndSort toLowerCase q "all" sortBy l).map (List.map (flipMatching d)) := by
  have hstatus : ∀ r : List Item, statusStage "all" r = r := by
    intro r
    simp [statusStage]
  unfold applyFiltersAndSort searchStage
  by_cases hq : q = ""
  · simp [hq, hstatus, sortStage_map_flipMatching]
  · simp only [hq, ne_eq, not_false_eq_true, if_true, hstatus]
    rw [filterChecked_map_invariant _ _ (matchesSearch_flipMatching toLowerCase q d)]
    cases filterChecked (matchesSearch toLowerCase q) l with
    | none => rfl
    | some r => simp [sortStage_map_flipMatching]

theorem map_flipMatching_of_unique (o : Task) (pre post : List Item)
    (hpre : ∀ t ∈ pre, sameIdentity t (.obj o) = false)
    (hpost : ∀ t ∈ post, sameIdentity t (.obj o) = false) :
    (pre ++ .obj o :: post).map (flipMatching (.obj o))
      = pre ++ .obj { o with completed := !o.completed } :: post := by
  have h1 : pre.map (flipMatching (.obj o)) = pre := by
    rw [List.map_congr_left (fun t ht => flipMatching_of_other _ t (hpre t ht)), List.map_id']
  have h2 : post.map (flipMatching (.obj o)) = post := by
    rw [List.map_congr_left (fun t ht => flipMatching_of_other _ t (hpost t ht)), List.map_id']
  rw [List.map_append, List.map_cons, h1, h2, flipMatching_self]

theorem passesStatus_of_mem_display (toLowerCase : String → String) (q f sortBy : String)
    (tasks display : List Item)
    (h : applyFiltersAndSort toLowerCase q f sortBy tasks = some display)
    (hf : f = "all" ∨ f = "active" ∨ f = "completed") (t : Item) (ht : t ∈ display) :
    PassesStatus f t := by
  unfold applyFiltersAndSort at h
  cases hs : searchStage toLowerCase q tasks with
  | none => simp [hs] at h
  | some r =>
    simp only [hs, Option.map_some', Option.some.injEq] at h
    subst h
    exact ((mem_statusStage f r t hf).mp ((sortStage_perm sortBy _).mem_iff.mp ht)).2

/-- One toggle on a stored list of task objects: the first stored task with
the identity of the display item d is replaced, and the display list is
derived again without an exception. -/
theorem toggleComplete_at_first_match (toLowerCase : String → String) (s : HomeScreen)
    (i : Nat) (d : Item)
    (hobj : ∀ t ∈ s.tasks, t.isString = false)
    (hdisp : applyFiltersAndSort toLowerCase s.searchQuery s.filter s.sortBy s.tasks
      = some s.filteredTasks)
    (hd : s.filteredTasks[i]? = some d) :
    ∃ (k : Nat) (o : Task), s.tasks[k]? = some (Item.obj o)
      ∧ sameIdentity (.obj o) d = true
      ∧ (∀ m u, m < k → s.tasks[m]? = some u → sameIdentity u d = false)
      ∧ (toggleComplete s i).state
          = { s with
              tasks := s.tasks.set k (.obj { o with completed := !d.completed })
              storage := (s.storage.setItem
                (.array (s.tasks.set k (.obj { o with completed := !d.completed })))).1 }
      ∧ ∃ display, applyFiltersAndSort toLowerCase s.searchQuery s.filter s.sortBy
            (s.tasks.set k (.obj { o with completed := !d.completed })) = some display
          ∧ refresh toLowerCase (toggleComplete s i).state
            = ⟨{ (toggleComplete s i).state with filteredTasks := display }, false⟩ := by
  have hmem : d ∈ s.tasks :=
    mem_of_mem_display toLowerCase _ _ _ _ _ hdisp d (List.getElem?_mem hd)
  have hself : sameIdentity d d = true :=
    (sameIdentity_of_object d d (hobj d hmem)).mpr ⟨rfl, rfl⟩
  obtain ⟨k, hk⟩ := findIndex_isSome_of_mem (fun u => sameIdentity u d) s.tasks d hmem hself
  obtain ⟨old, hold, hp, hbefore, hupd⟩ := updateTask_at_first_match s i (!d.completed) d k hd hk
  obtain ⟨o, rfl⟩ : ∃ o, old = .obj o := by
    cases old with
    | str x => exact absurd (hobj _ (List.getElem?_mem hold)) (by simp [Item.isString])
    | obj o => exact ⟨o, rfl⟩
  have htoggle : toggleComplete s i = updateTask s i (!d.completed) := by
    simp only [toggleComplete, hd]
  have hstate : (toggleComplete s i).state
      = { s with
          tasks := s.tasks.set k (.obj { o with completed := !d.completed })
          storage := (s.storage.setItem
            (.array (s.tasks.set k (.obj { o with completed := !d.completed })))).1 } := by
    rw [htoggle, hupd]
    rfl
  have hsome : (applyFiltersAndSort toLowerCase s.searchQuery s.filter s.sortBy
      (s.tasks.set k (.obj { o with completed := !d.completed }))).isSome = true := by
    rw [applyFiltersAndSort_isSome_iff]
    intro hq t ht
    have h0 := (applyFiltersAndSort_isSome_iff toLowerCase s.searchQuery s.filter s.sortBy
      s.tasks).mp (by rw [hdisp]; rfl) hq
    rcases List.mem_or_eq_of_mem_set ht with h | h
    · exact h0 t h
    · have := h0 (.obj o) (List.getElem?_mem hold)
      rw [h]
      simpa [matchesSearch] using this
  obtain ⟨display, hdisplay⟩ := Option.isSome_iff_exists.mp hsome
  refine ⟨k, o, hold, hp, hbefore, hstate, display, hdisplay, ?_⟩
  rw [hstate]
  simp only [refresh, hdisplay]

theorem sameIdentity_of_fields (t : Item) (o : Task)
    (h : t.text = (Item.obj o).text ∧ t.createdAt = (Item.obj o).createdAt) :
    sameIdentity t (.obj o) = true := by
  cases t with
  | str x => simp [Item.text] at h
  | obj r => exact (sameIdentity_of_object (.obj r) (.obj o) rfl).mpr h

/-! ## Theorem on toggling twice -/

/-- C5, amended. On a stored list of task objects, toggling the display item
d replaces the first stored task with the identity (text, createdAt) of d by
the same task with the negated completed flag of d, leaves every other
position as it was, and the display list is derived again without an
exception. If moreover d is the only stored task with its identity, then the
task replaced is d itself; with the status filter all, toggling the same
index again gives back the stored list; with the status filter active or
completed, no item of the re-derived display list has the identity of d; and
whenever an item of the re-derived display list has the identity of d,
toggling it gives back the stored list, also as the persisted value when
writes succeed. -/
theorem toggle_twice_restores_a_unique_task (toLowerCase : String → String)
    (s : HomeScreen) (i : Nat) (d : Item)
    (hobj : ∀ t ∈ s.tasks, t.isString = false)
    (hdisp : applyFiltersAndSort toLowerCase s.searchQuery s.filter s.sortBy s.tasks
      = some s.filteredTasks)
    (hd : s.filteredTasks[i]? = some d) :
    (∃ (k : Nat) (o : Task), s.tasks[k]? = some (Item.obj o)
        ∧ ((Item.obj o).text = d.text ∧ (Item.obj o).createdAt = d.createdAt)
        ∧ (∀ m u, m < k → s.tasks[m]? = some u →
            ¬ (u.text = d.text ∧ u.createdAt = d.createdAt))
        ∧ (toggleComplete s i).state.tasks
            = s.tasks.set k (Item.obj { o with completed := !d.completed })
        ∧ (∀ m, m ≠ k → (toggleComplete s i).state.tasks[m]? = s.tasks[m]?)
        ∧ (refresh toLowerCase (toggleComplete s i).state).threw = false)
      ∧ (s.tasks.countP (fun t => decide (t.text = d.text ∧ t.createdAt = d.createdAt)) ≤ 1 →
          (∃ (k : Nat) (o : Task), d = Item.obj o ∧ s.tasks[k]? = some d
              ∧ (toggleComplete s i).state.tasks
                  = s.tasks.set k (Item.obj { o with completed := !o.completed }))
            ∧ (s.filter = "all" → (toggleTwice toLowerCase s i i).tasks = s.tasks)
            ∧ ((s.filter = "active" ∨ s.filter = "completed") →
                ∀ (j : Nat) (d2 : Item),
                  (refresh toLowerCase (toggleComplete s i).state).state.filteredTasks[j]?
                      = some d2 →
                  ¬ (d2.text = d.text ∧ d2.createdAt = d.createdAt))
            ∧ (∀ (j : Nat) (d2 : Item),
                (refresh toLowerCase (toggleComplete s i).state).state.filteredTasks[j]?
                    = some d2 →
                (d2.text = d.text ∧ d2.createdAt = d.createdAt) →
                (toggleTwice toLowerCase s i j).tasks = s.tasks
                  ∧ (s.storage.writeFails = false →
                      (toggleTwice toLowerCase s i j).storage.value = .array s.tasks))) := by
  obtain ⟨k, o, hold, hp, hbefore, hstate, display, hdisplay, hrefresh⟩ :=
    toggleComplete_at_first_match toLowerCase s i d hobj hdisp hd
  have hmem : d ∈ s.tasks :=
    mem_of_mem_display toLowerCase _ _ _ _ _ hdisp d (List.getElem?_mem hd)
  constructor
  · refine ⟨k, o, hold, (sameIdentity_of_object (.obj o) d rfl).mp hp, ?_, ?_, ?_, ?_⟩
    · intro m u hm hu hid
      have hfalse := hbefore m u hm hu
      rw [(sameIdentity_of_object u d (hobj u (List.getElem?_mem hu))).mpr hid] at hfalse
      exact absurd hfalse (by decide)
    · rw [hstate]
    · intro m hm
      rw [hstate]
      exact List.getElem?_set_ne (Ne.symm hm)
    · rw [hrefresh]
  · intro hcount
    have huniq : s.tasks.countP (fun t => sameIdentity t d) ≤ 1 := by
      have hcongr : s.tasks.countP (fun t => sameIdentity t d)
          = s.tasks.countP (fun t => decide (t.text = d.text ∧ t.createdAt = d.createdAt)) := by
        apply List.countP_congr
        intro t ht
        simp only [decide_eq_true_eq]
        exact sameIdentity_of_object t d (hobj t ht)
      rw [hcongr]
      exact hcount
    obtain ⟨od, rfl⟩ : ∃ od, d = .obj od := by
      cases d with
      | str x => exact absurd (hobj _ hmem) (by simp [Item.isString])
      | obj od => exact ⟨od, rfl⟩
    have hself : sameIdentity (.obj od) (.obj od) = true :=
      sameIdentity_of_fields _ od ⟨rfl, rfl⟩
    obtain ⟨pre, post, hl, hpre, hpost⟩ :=
      split_at_unique (fun t => sameIdentity t (.obj od)) s.tasks _ hmem hself huniq
    have h1 := toggleComplete_at_unique s i od pre post hd hl hpre
    have hsecond : ∀ (j : Nat) (d2 : Item),
        (refresh toLowerCase (toggleComplete s i).state).state.filteredTasks[j]? = some d2 →
        (d2.text = (Item.obj od).text ∧ d2.createdAt = (Item.obj od).createdAt) →
        d2 = withCompleted (.obj od) (!(Item.obj od).completed)
          ∧ (toggleTwice toLowerCase s i j).tasks = s.tasks
          ∧ (s.storage.writeFails = false →
              (toggleTwice toLowerCase s i j).storage.value = .array s.tasks) := by
      intro j d2 hd2 hid
      exact (toggleTwice_of_second_hit toLowerCase s i j (.obj od) d2 hobj hdisp hd huniq hd2
        (sameIdentity_of_fields d2 od hid)).2.2
    refine ⟨⟨pre.length, od, rfl, ?_, ?_⟩, ?_, ?_, ?_⟩
    · rw [hl]
      exact getElem?_append_cons_length pre post _
    · rw [h1, hl, set_append_cons_length]
    · intro hall
      have hdisp2 : applyFiltersAndSort toLowerCase s.searchQuery s.filter s.sortBy
          (pre ++ .obj { od with completed := !od.completed } :: post)
          = some (s.filteredTasks.map (flipMatching (.obj od))) := by
        rw [← map_flipMatching_of_unique od pre post hpre hpost, ← hl]
        rw [hall] at hdisp ⊢
        rw [applyFiltersAndSort_all_map_flipMatching, hdisp]
        rfl
      have href : (refresh toLowerCase (toggleComplete s i).state).state.filteredTasks
          = s.filteredTasks.map (flipMatching (.obj od)) := by
        rw [h1]
        simp only [refresh, hdisp2]
      have hd2 : (refresh toLowerCase (toggleComplete s i).state).state.filteredTasks[i]?
          = some (.obj { od with completed := !od.completed }) := by
        rw [href, List.getElem?_map, hd, Option.map_some', flipMatching_self]
      exact (hsecond i _ hd2 ⟨rfl, rfl⟩).2.1
    · intro hfilter j d2 hd2 hid
      have hd2eq := (hsecond j d2 hd2 hid).1
      have hf3 : s.filter = "all" ∨ s.filter = "active" ∨ s.filter = "completed" :=
        Or.inr hfilter
      have hpd : PassesStatus s.filter (.obj od) :=
        passesStatus_of_mem_display toLowerCase _ _ _ _ _ hdisp hf3 _ (List.getElem?_mem hd)
      have hmem2 : d2 ∈ display := by
        rw [hrefresh] at hd2
        exact List.getElem?_mem hd2
      have hpd2 : PassesStatus s.filter d2 :=
        passesStatus_of_mem_display toLowerCase _ _ _ _ _ hdisplay hf3 _ hmem2
      have hflag : d2.completed = !(Item.obj od).completed := by
        rw [hd2eq]
        rfl
      rcases hfilter with hf | hf
      · rw [hf] at hpd hpd2
        rcases hpd with h | h | h
        · exact absurd h (by decide)
        · rcases hpd2 with g | g | g
          · exact absurd g (by decide)
          · rw [hflag, h.2] at g
            exact absurd g.2 (by decide)
          · exact absurd g.1 (by decide)
        · exact absurd h.1 (by decide)
      · rw [hf] at hpd hpd2
        rcases hpd with h | h | h
        · exact absurd h (by decide)
        · exact absurd h.1 (by decide)
        · rcases hpd2 with g | g | g
          · exact absurd g (by decide)
          · exact absurd g.1 (by decide)
          · rw [hflag, h.2] at g
            exact absurd g.2 (by decide)
    · intro j d2 hd2 hid
      exact (hsecond j d2 hd2 hid).2

/-- C5, amended, at examples: in the store [A, B] under the filter all the
first display item is toggled twice and the store is back; under the filter
active the toggled task leaves the display list. -/
theorem toggle_twice_restores_first_of_pair :
    (∀ t ∈ pair.tasks, t.isString = false)
      ∧ applyFiltersAndSort asciiLower pair.searchQuery pair.filter pair.sortBy pair.tasks
          = some pair.filteredTasks
      ∧ pair.filteredTasks[0]? = some activeA
      ∧ pair.tasks.countP
          (fun t => decide (t.text = activeA.text ∧ t.createdAt = activeA.createdAt)) ≤ 1
      ∧ pair.filter = "all"
      ∧ (toggleComplete pair 0).state.tasks
          = [Item.obj
              { text := "A", completed := true, priority := .undefined,
                category := .undefined, dueDate := .undefined, notes := .undefined,
                createdAt := .undefined }, doneB]
      ∧ (toggleTwice asciiLower pair 0 0).tasks = pair.tasks
      ∧ (refresh asciiLower
          (toggleComplete { pair with filter := "active", filteredTasks := [activeA] } 0).state
          ).state.filteredTasks = [] :=
  ⟨by decide, by decide, by decide, by decide, rfl, by decide,
    ((toggle_twice_restores_a_unique_task asciiLower pair 0 activeA
      (by decide) (by decide) (by decide)).2 (by decide)).2.1 rfl,
    by decide⟩

end TodoApp
